import Mathlib

/-!
# Verification of the cratesfyi crate pipeline against its specification

This file gives a shallow embedding, in Lean 4, of the core of the
cratesfyi documentation builder (`src/docbuilder/crte.rs` together with
the schema in `src/db.rs`) and proves, or refutes, the specified
properties of that code.

The embedding follows the Rust source function by function:

* `Crate`, `version_starts_with`, `get_version_index`, `canonical_name`
  mirror the crate model and its version lookups;
* `parse_cargo_index_line`, `from_cargo_index_file`,
  `from_cargo_index_path` mirror index resolution, with the external
  JSON parser abstracted as a function argument and file/directory IO
  reified as explicit data (`Except` values for fallible reads, an
  inductive directory tree for the index);
* `get_local_dependencies`, `handle_local_dependencies`,
  `download_dependencies` mirror the dependency stager, with filesystem
  side effects reified as an explicit action trace;
* `build_crate_doc` / `build_doc` mirror the build executor, with
  external command outcomes passed in as data;
* `add_crate_into_database` together with its helper steps mirrors the
  database ingestion over an explicit relational-store state `Db`
  reflecting the schema of `src/db.rs`.

Rust `panic!`/indexing-out-of-bounds is modelled by `Option`
(`none` = the source would panic), and fallible Rust `Result` code by
`Except`.
-/

namespace Cratesfyi

/-! ## Rust string primitives

Rust's `str::starts_with` and `str::trim` are embedded at the character
level, so that they are executable by kernel reduction.  (`str::trim`
strips Unicode whitespace on both ends; `Char.isWhitespace` covers the
ASCII whitespace relevant here.) -/

/-- Rust `str::starts_with`: the pattern's characters are a prefix of
the string's characters. -/
def str_starts_with (s pat : String) : Bool :=
  pat.toList.isPrefixOf s.toList

/-- Rust `str::trim`: drop whitespace from both ends. -/
def str_trim (s : String) : String :=
  String.mk (((s.toList.dropWhile Char.isWhitespace).reverse.dropWhile
    Char.isWhitespace).reverse)

/-- Helper for `str_contains`: the pattern occurs in the haystack at
some position. -/
def contains_sub (pat : List Char) : List Char → Bool
  | [] => pat.isPrefixOf []
  | c :: rest => pat.isPrefixOf (c :: rest) || contains_sub pat rest

/-- Rust `str::contains` with a string pattern, embedded at the
character level. -/
def str_contains (s pat : String) : Bool :=
  contains_sub pat.toList s.toList

/-! ## The crate model (`struct Crate`) -/

/-- `struct Crate { name, versions }` from `crte.rs`. -/
structure Crate where
  name : String
  versions : List String
deriving DecidableEq

namespace Crate

/-- `Crate::new`. -/
def new (name : String) (versions : List String) : Crate :=
  { name := name, versions := versions }

/-- Loop body of `Crate::get_version_index`: scans `versions` from the
front, returning the index of the first exact match. -/
def get_version_index_from : List String → Nat → String → Option Nat
  | [], _, _ => none
  | v :: rest, i, requested_version =>
      if v = requested_version then some i
      else get_version_index_from rest (i + 1) requested_version

/-- `Crate::get_version_index`: index of the first version equal to
`requested_version`, or `none`. -/
def get_version_index (c : Crate) (requested_version : String) : Option Nat :=
  get_version_index_from c.versions 0 requested_version

/-- Loop body of `Crate::version_starts_with`: scans `versions` from the
front, returning the index of the first version string that starts with
the requested string. -/
def version_starts_with_from : List String → Nat → String → Option Nat
  | [], _, _ => none
  | v :: rest, i, version =>
      if str_starts_with v version then some i
      else version_starts_with_from rest (i + 1) version

/-- `Crate::version_starts_with`: `"*"` is mapped to index 0 before the
scan; otherwise the first version whose string starts with `version`
wins. -/
def version_starts_with (c : Crate) (version : String) : Option Nat :=
  if version = "*" then some 0
  else version_starts_with_from c.versions 0 version

/-- `Crate::canonical_name`: `format!("{}-{}", self.name, self.versions[version_index])`.
The Rust code indexes `versions` without a bounds check; `none` models
the panic on an out-of-bounds `version_index`. -/
def canonical_name (c : Crate) (version_index : Nat) : Option String :=
  (c.versions.get? version_index).map (fun v => c.name ++ "-" ++ v)

end Crate

/-! ## Error types

Payloads of external error types are abstracted to a message string;
the variants of the repository's own error enums follow the source. -/

/-- Payload of `rustc_serialize::json::ParserError`, abstracted. -/
structure ParserError where
  msg : String
deriving DecidableEq

/-- Payload of `std::io::Error`, abstracted. -/
structure IoError where
  msg : String
deriving DecidableEq

/-- Payload of `cargo::util::errors::CargoError`, abstracted. -/
structure CargoError where
  msg : String
deriving DecidableEq

/-- Payload of `rustc_serialize::json::EncoderError`, abstracted. -/
structure EncoderError where
  msg : String
deriving DecidableEq

/-- Payload of `postgres::error::Error`, abstracted. -/
structure PostgresError where
  msg : String
deriving DecidableEq

/-- `DocBuilderError` lives in the `docbuilder` module, whose file is
not among the provided sources; its variants are reconstructed from
their uses in `crte.rs`.  In particular `FailedToBuildCrate` is used
there as `Err(DocBuilderError::FailedToBuildCrate)`, i.e. as a variant
with no payload. -/
inductive DocBuilderError where
  | LocalDependencyIoError (e : IoError)
  | LocalDependencyDownloadError (m : String)
  | LocalDependencyExtractCrateError (m : String)
  | LocalDependencyDownloadDirNotExist
  | RemoveBuildDir (e : IoError)
  | DownloadCrateError (m : String)
  | ExtractCrateError (m : String)
  | RemoveCrateFile (e : IoError)
  | FailedToBuildCrate
deriving DecidableEq

/-- `enum CrateOpenError` from `crte.rs`. -/
inductive CrateOpenError where
  | FileNotFound
  | EncoderError (e : EncoderError)
  | ParseError (e : ParserError)
  | IoError (e : IoError)
  | ManifestError (e : CargoError)
  | NotObject
  | NameNotFound
  | VersNotFound
  | DbError (e : PostgresError)
  | CommandError (m : String)
  | DocBuilderError (e : DocBuilderError)
deriving DecidableEq

/-! ## JSON values (`rustc_serialize::json::Json`)

Only the shapes the code inspects are distinguished; values it never
looks into (numbers, booleans, arrays it does not traverse, null) are
collapsed into `other`. -/

/-- Abstract JSON value. -/
inductive Json where
  | str (s : String)
  | obj (members : List (String × Json))
  | other

/-- `Json::as_object`. -/
def Json.as_object : Json → Option (List (String × Json))
  | .obj m => some m
  | _ => none

/-- `Json::as_string`. -/
def Json.as_string : Json → Option String
  | .str s => some s
  | _ => none

/-- `BTreeMap::get` on a JSON object's members. -/
def Json.get (members : List (String × Json)) (key : String) : Option Json :=
  (members.find? (fun p => p.1 = key)).map (fun p => p.2)

/-! ## Index resolution (`from_cargo_index_file`, `from_cargo_index_path`) -/

/-- Result of `fs::File::open` + `BufReader::lines`: an open failure,
or the sequence of per-line read results. -/
abbrev OpenResult := Except IoError (List (Except IoError String))

namespace Crate

/-- `Crate::parse_cargo_index_line`.  `Json::from_str` (external) is
passed in as `parse`; the line is trimmed before parsing, as in the
source. -/
def parse_cargo_index_line (parse : String → Except ParserError Json)
    (line : String) : Except CrateOpenError (String × String) :=
  match parse (str_trim line) with
  | .error e => .error (.ParseError e)
  | .ok data =>
  match data.as_object with
  | none => .error .NotObject
  | some obj =>
  match (Json.get obj "name").bind Json.as_string with
  | none => .error .NameNotFound
  | some crate_name =>
  match (Json.get obj "vers").bind Json.as_string with
  | none => .error .VersNotFound
  | some vers => .ok (crate_name, vers)

/-- The `for line in reader.lines()` loop of
`Crate::from_cargo_index_file`: each read line is parsed, `name` is
overwritten with the parsed name, and the parsed version is appended to
`versions`. -/
def index_file_loop (parse : String → Except ParserError Json) :
    List (Except IoError String) → String → List String →
    Except CrateOpenError (String × List String)
  | [], name, versions => .ok (name, versions)
  | line :: rest, name, versions =>
      match line with
      | .error e => .error (.IoError e)
      | .ok line =>
      match parse_cargo_index_line parse line with
      | .error e => .error e
      | .ok (cname, vers) => index_file_loop parse rest cname (versions ++ [vers])

/-- `Crate::from_cargo_index_file`: run the line loop on the opened
file, then reverse the accumulated versions. -/
def from_cargo_index_file (parse : String → Except ParserError Json)
    (file : OpenResult) : Except CrateOpenError Crate :=
  match file with
  | .error e => .error (.IoError e)
  | .ok lines =>
      match index_file_loop parse lines "" [] with
      | .error e => .error e
      | .ok (name, versions) => .ok { name := name, versions := versions.reverse }

end Crate

/-- A node of the mirrored-index directory tree.  A file node carries
the `OpenResult` that opening it would produce. -/
inductive IndexTree where
  | file (fname : String) (content : OpenResult)
  | dir (fname : String) (entries : List IndexTree)

/-- `DirEntry::file_name` of a tree node. -/
def IndexTree.entry_name : IndexTree → String
  | .file n _ => n
  | .dir n _ => n

/-- The skip test of `Crate::from_cargo_index_path`:
`path.to_str().unwrap().contains(".git") || path.file_name().unwrap() == "config.json"`,
applied to an entry of the directory whose textual path is `pathStr`
(entry paths are formed with a `/` separator). -/
def skip_entry (pathStr : String) (e : IndexTree) : Bool :=
  str_contains (pathStr ++ "/" ++ e.entry_name) ".git" || e.entry_name = "config.json"

/-- The `for file in try!(path.read_dir())` loop of
`Crate::from_cargo_index_path`, over the entries of the directory whose
textual path is `pathStr`.  An entry matching `skip_entry` is skipped; a
subdirectory is searched recursively with its error discarded
(`if let Ok(c)`); a file whose name equals `name` is resolved with
`from_cargo_index_file` and that result — success or error —
returned. -/
def index_path_search (parse : String → Except ParserError Json)
    (name : String) : String → List IndexTree → Except CrateOpenError Crate
  | _, [] => .error .FileNotFound
  | pathStr, e :: rest =>
      if skip_entry pathStr e then
        index_path_search parse name pathStr rest
      else
        match e with
        | .dir dn entries =>
            match index_path_search parse name (pathStr ++ "/" ++ dn) entries with
            | .ok c => .ok c
            | .error _ => index_path_search parse name pathStr rest
        | .file fname content =>
            if fname = name then Crate.from_cargo_index_file parse content
            else index_path_search parse name pathStr rest

/-- `Crate::from_cargo_index_path`, with the filesystem reified as an
`IndexTree` rooted at the directory with textual path `rootPath`.  A
root that is not a directory fails immediately with `FileNotFound`. -/
def Crate.from_cargo_index_path (parse : String → Except ParserError Json)
    (name : String) (rootPath : String) (root : IndexTree) :
    Except CrateOpenError Crate :=
  match root with
  | .file _ _ => .error .FileNotFound
  | .dir _ entries => index_path_search parse name rootPath entries

/-- The contents of the eligible files named `name`, in the order the
depth-first search of `index_path_search` visits them: a skipped entry
contributes nothing, a subdirectory contributes its own matches first,
and a matching file contributes its content. -/
def index_path_matches (name : String) : String → List IndexTree → List OpenResult
  | _, [] => []
  | pathStr, e :: rest =>
      if skip_entry pathStr e then
        index_path_matches name pathStr rest
      else
        match e with
        | .dir dn entries =>
            index_path_matches name (pathStr ++ "/" ++ dn) entries ++
              index_path_matches name pathStr rest
        | .file fname content =>
            if fname = name then content :: index_path_matches name pathStr rest
            else index_path_matches name pathStr rest

/-! ## Author parsing (the `^([^><]+)<*(.*?)>*$` regex)

The fixed regular expression of `add_crate_into_database` step 7 is
embedded as a direct matcher with Rust's leftmost-first (backtracking
compatible) semantics: group 1 `[^><]+` is greedy, `<*` is greedy,
group 2 `.*?` is lazy (and `.` does not match a newline), `>*` runs to
the anchored end. -/

/-- A character matched by the class `[^><]`. -/
def not_angle (c : Char) : Bool :=
  c != '<' && c != '>'

/-- Matcher for the tail `(.*?)>*$` from the current position: the lazy
`.*?` takes the shortest prefix (of non-newline characters) such that
everything after it is `'>'`; that prefix is group 2's capture. -/
def match_lazy_tail : List Char → List Char → Option (List Char)
  | [], acc => some acc.reverse
  | c :: cs, acc =>
      if (c :: cs).all (fun d => d = '>') then some acc.reverse
      else if c = '\n' then none
      else match_lazy_tail cs (c :: acc)

/-- Backtracking over the greedy `<*`: try consuming `k` leading `'<'`
characters, from the maximal run down to zero. -/
def try_angles (rest1 : List Char) : Nat → Option (List Char)
  | 0 => match_lazy_tail rest1 []
  | k + 1 =>
      match match_lazy_tail (rest1.drop (k + 1)) [] with
      | some cap => some cap
      | none => try_angles rest1 k

/-- Backtracking over the greedy `[^><]+`: try a group-1 length, from
the maximal run of non-angle characters down to one (zero fails: the
class requires at least one character). -/
def try_group1 (cs : List Char) : Nat → Option (List Char × List Char)
  | 0 => none
  | k + 1 =>
      let rest1 := cs.drop (k + 1)
      match try_angles rest1 ((rest1.takeWhile (fun c => c = '<')).length) with
      | some cap2 => some (cs.take (k + 1), cap2)
      | none => try_group1 cs k

/-- `Regex::new("^([^><]+)<*(.*?)>*$").captures(author)`: the two
capture groups (`at(1)`, `at(2)`) on a match, `none` otherwise. -/
def author_captures (s : String) : Option (String × String) :=
  let cs := s.toList
  (try_group1 cs ((cs.takeWhile not_angle).length)).map
    (fun p => (String.mk p.1, String.mk p.2))

/-- The author-string parsing of `add_crate_into_database` step 7: on a
match, group 1 trimmed is the author name and group 2 trimmed the
email; a string that does not match is skipped. -/
def parse_author (author : String) : Option (String × String) :=
  (author_captures author).map (fun p => (str_trim p.1, str_trim p.2))

/-! ## Build executor (`build_crate_doc`, `build_doc`) -/

/-- Modelled from the spec: `command_result` is defined in the
`docbuilder` module, which is not among the provided sources.  Per the
spec (§4.3 step 5/6, §6), the external command's combined stdout/stderr
is captured as the log text and the process exit status drives
classification: a zero exit yields `Ok` carrying the log, a non-zero
exit yields `Err` carrying the log. -/
def command_result (exit_zero : Bool) (log : String) : Except String String :=
  if exit_zero then .ok log else .error log

/-- `Crate::build_doc`: run `cargo doc --no-deps --verbose` inside the
package directory and classify with `command_result`.  The
working-directory save/restore around the invocation does not affect
the returned value. -/
def build_doc (exit_zero : Bool) (log : String) : Except String String :=
  command_result exit_zero log

/-- `Crate::build_crate_doc`, with the outcomes of the external steps
passed in as data: the clean step (`remove_build_dir_for_crate`), the
`wget` download, the `tar` extraction, dependency staging, and the
`cargo doc` invocation (exit status plus captured log).  The final
classification keeps only the boolean `status`: a failed build maps to
the payload-free `FailedToBuildCrate` (the captured log is only passed
to `info!`). -/
def build_crate_doc
    (remove_build_dir_result : Except DocBuilderError Unit)
    (download_result extract_result : Except String String)
    (deps_result : Except DocBuilderError Unit)
    (exit_zero : Bool) (log : String) : Except DocBuilderError Unit :=
  match remove_build_dir_result with
  | .error e => .error e
  | .ok _ =>
  match download_result with
  | .error m => .error (.DownloadCrateError m)
  | .ok _ =>
  match extract_result with
  | .error m => .error (.ExtractCrateError m)
  | .ok _ =>
  match deps_result with
  | .error e => .error e
  | .ok _ =>
  match build_doc exit_zero log with
  | .ok _ => .ok ()
  | .error _ => .error .FailedToBuildCrate

/-! ## Dependency stager (`get_local_dependencies`, `handle_local_dependencies`) -/

/-- Abstract syntax of the TOML values `download_dependencies`
inspects; everything else is collapsed into `other`. -/
inductive TomlValue where
  | str (s : String)
  | table (entries : List (String × TomlValue))
  | other

/-- `toml::Value::as_table`. -/
def TomlValue.as_table : TomlValue → Option (List (String × TomlValue))
  | .table t => some t
  | _ => none

/-- `toml::Value::as_str`. -/
def TomlValue.as_str : TomlValue → Option String
  | .str s => some s
  | _ => none

/-- `BTreeMap::get` on a TOML table. -/
def toml_get (t : List (String × TomlValue)) (key : String) : Option TomlValue :=
  (t.find? (fun p => p.1 = key)).map (fun p => p.2)

/-- Body of the `for key in dependencies_table.keys()` loop of
`Crate::get_local_dependencies`, for one `(key, value)` entry: a
dependency extends the accumulator with a `(crate, version_index,
path)` triple exactly when it is a table with a string `path`, a string
`version`, an index lookup (`from_cargo_index_path` against the
builder's index) that succeeds, and a version prefix match; every other
entry leaves the accumulator unchanged. -/
def local_dependency_step (parse : String → Except ParserError Json)
    (indexPath : String) (indexTree : IndexTree)
    (local_dependencies : List (Crate × Nat × String)) (kv : String × TomlValue) :
    List (Crate × Nat × String) :=
  match kv.2.as_table with
  | none => local_dependencies
  | some key_table =>
  match (toml_get key_table "path").bind TomlValue.as_str with
  | none => local_dependencies
  | some path =>
  match (toml_get key_table "version").bind TomlValue.as_str with
  | none => local_dependencies
  | some version =>
  match Crate.from_cargo_index_path parse kv.1 indexPath indexTree with
  | .error _ => local_dependencies
  | .ok dep_crate =>
  match dep_crate.version_starts_with version with
  | none => local_dependencies
  | some version_index =>
      local_dependencies ++ [(dep_crate, version_index, path)]

/-- `Crate::get_local_dependencies`: fold the loop body over the
dependency table.  Always returns `Some`. -/
def Crate.get_local_dependencies (parse : String → Except ParserError Json)
    (indexPath : String) (indexTree : IndexTree)
    (dependencies_table : List (String × TomlValue)) :
    Option (List (Crate × Nat × String)) :=
  some (dependencies_table.foldl (local_dependency_step parse indexPath indexTree) [])

/-- The triple one dependency entry contributes, if any: the
staged-dependency condition of `local_dependency_step` expressed as a
partial function (used to characterise the staged set). -/
def local_dependency_of (parse : String → Except ParserError Json)
    (indexPath : String) (indexTree : IndexTree) (kv : String × TomlValue) :
    Option (Crate × Nat × String) :=
  match kv.2.as_table with
  | none => none
  | some key_table =>
  match (toml_get key_table "path").bind TomlValue.as_str with
  | none => none
  | some path =>
  match (toml_get key_table "version").bind TomlValue.as_str with
  | none => none
  | some version =>
  match Crate.from_cargo_index_path parse kv.1 indexPath indexTree with
  | .error _ => none
  | .ok dep_crate =>
  match dep_crate.version_starts_with version with
  | none => none
  | some version_index => some (dep_crate, version_index, path)

/-- A filesystem side effect of the stager, reified. -/
inductive FsAction where
  | create_dir_all (path : String)
  | download (name : String) (version : String)
  | extract (name : String) (version : String)
  | copy_files (fromDir : String) (toDir : String)
  | remove_dir_all (dir : String)
  | remove_file (file : String)
deriving DecidableEq

/-- Oracle for the filesystem and external-command outcomes the stager
observes, keyed by the canonical `{name}-{version}` directory name
where applicable. -/
structure StageFs where
  path_exists : String → Bool
  download_result : String → Except String String
  extract_result : String → Except String String
  download_dir_exists : String → Bool
  crate_file_exists : String → Bool

/-- The body of the `for local_dependency in local_dependencies` loop
of `Crate::handle_local_dependencies`, for one dependency: ensure the
target path exists, download and extract the dependency's archive,
check the extraction directory, copy it into the target path, then
remove the extraction directory and the `.crate` file (the latter only
if present).  `versions[version_index]` is indexed unchecked in the
source (`crte.rs` 198, 180, 291–293): an out-of-bounds index panics
there — reachable when the requirement `"*"` matched a crate with an
empty versions list, see the C10 theorem — and the panic is modelled as
the outer `none`.  Otherwise, on success the performed actions are
returned in order; an error aborts with the failing step's error and no
trace. -/
def stage_one (fs : StageFs) (root_dir : String) (dep : Crate × Nat × String) :
    Option (Except DocBuilderError (List FsAction)) :=
  let crte := dep.1
  let version_index := dep.2.1
  let path := root_dir ++ "/" ++ dep.2.2
  let mkdir : List FsAction :=
    if fs.path_exists path then [] else [.create_dir_all path]
  match crte.versions[version_index]? with
  | none => none
  | some version =>
  let canonical := crte.name ++ "-" ++ version
  some (match fs.download_result canonical with
  | .error m => .error (.LocalDependencyDownloadError m)
  | .ok _ =>
  match fs.extract_result canonical with
  | .error m => .error (.LocalDependencyExtractCrateError m)
  | .ok _ =>
  if fs.download_dir_exists canonical then
    .ok (mkdir ++ [.download crte.name version, .extract crte.name version,
         .copy_files canonical path, .remove_dir_all canonical] ++
         (if fs.crate_file_exists (canonical ++ ".crate")
          then [.remove_file (canonical ++ ".crate")] else []))
  else .error .LocalDependencyDownloadDirNotExist)

/-- `Crate::handle_local_dependencies`: stage each dependency in order,
fail-fast, collecting the action trace (`none` propagates a panic). -/
def handle_local_dependencies (fs : StageFs)
    (local_dependencies : List (Crate × Nat × String)) (root_dir : String) :
    Option (Except DocBuilderError (List FsAction)) :=
  match local_dependencies with
  | [] => some (.ok [])
  | dep :: rest =>
      match stage_one fs root_dir dep with
      | none => none
      | some (.error e) => some (.error e)
      | some (.ok acts) =>
          match handle_local_dependencies fs rest root_dir with
          | none => none
          | some (.error e) => some (.error e)
          | some (.ok acts2) => some (.ok (acts ++ acts2))

/-- `Crate::download_dependencies`: read and parse the package's
`Cargo.toml` (`cargo_toml_read` carries the open/read outcome; `.ok
none` is a TOML parse failure, which the `unwrap_or(Ok(()))` chain
swallows), extract its `dependencies` table, filter the local
dependencies, and stage them (`none` is a staging panic). -/
def download_dependencies (parse : String → Except ParserError Json)
    (indexPath : String) (indexTree : IndexTree) (fs : StageFs)
    (cargo_toml_read : Except IoError (Option (List (String × TomlValue))))
    (root_dir : String) : Option (Except DocBuilderError (List FsAction)) :=
  match cargo_toml_read with
  | .error e => some (.error (.LocalDependencyIoError e))
  | .ok parsedToml =>
      match ((parsedToml.bind (fun t => toml_get t "dependencies")).bind
          TomlValue.as_table).bind
          (fun dt => Crate.get_local_dependencies parse indexPath indexTree dt) with
      | some ldeps => handle_local_dependencies fs ldeps root_dir
      | none => some (.ok [])

/-- The five actions the stager performs for one staged dependency. -/
def staged_actions (root_dir : String) (dep : Crate × Nat × String) : List FsAction :=
  [.download dep.1.name (dep.1.versions.getD dep.2.1 ""),
   .extract dep.1.name (dep.1.versions.getD dep.2.1 ""),
   .copy_files (dep.1.name ++ "-" ++ dep.1.versions.getD dep.2.1 "")
     (root_dir ++ "/" ++ dep.2.2),
   .remove_dir_all (dep.1.name ++ "-" ++ dep.1.versions.getD dep.2.1 ""),
   .remove_file (dep.1.name ++ "-" ++ dep.1.versions.getD dep.2.1 "" ++ ".crate")]

/-- The `(name, version)` pairs downloaded in an action trace. -/
def downloads_of (acts : List FsAction) : List (String × String) :=
  acts.filterMap (fun a => match a with
    | .download n v => some (n, v)
    | _ => none)

/-- Modelled from the spec: §4.2 requires the Dependency Stager, for
every dependency declared with both a path and a version, to fetch and
extract it and then "recursively stage *that* dependency's own local
dependencies".  This definition follows those words — `manifest_of`
gives each staged dependency's own parsed dependency table and `fuel`
bounds the recursion depth — and exists only to be compared against the
code's stager, which does not recurse. -/
def spec_stager_downloads (parse : String → Except ParserError Json)
    (indexPath : String) (indexTree : IndexTree)
    (manifest_of : String → Option (List (String × TomlValue))) :
    Nat → List (String × TomlValue) → List (String × String)
  | 0, _ => []
  | fuel + 1, table =>
      List.flatten
        (((Crate.get_local_dependencies parse indexPath indexTree table).getD []).map
          (fun dep =>
            (dep.1.name, dep.1.versions.getD dep.2.1 "") ::
              (match manifest_of dep.1.name with
               | some t =>
                   spec_stager_downloads parse indexPath indexTree manifest_of fuel t
               | none => [])))

/-! ## Concrete staging scenario

A two-crate index (`a` depending locally on `b`) used to compare the
code's stager with the spec's recursive description. -/

/-- JSON parser fixture: the two index lines of the demo index. -/
def demo_parse : String → Except ParserError Json :=
  fun s =>
    if s = "lineA" then .ok (.obj [("name", .str "a"), ("vers", .str "1.0")])
    else if s = "lineB" then .ok (.obj [("name", .str "b"), ("vers", .str "1.0")])
    else .error { msg := "invalid json" }

/-- Index tree fixture holding crates `a` and `b`. -/
def demo_index : IndexTree :=
  .dir "index" [.file "a" (.ok [.ok "lineA"]), .file "b" (.ok [.ok "lineB"])]

/-- Filesystem/command oracle fixture on which every staging step
succeeds. -/
def demo_fs : StageFs :=
  { path_exists := fun _ => true
    download_result := fun _ => .ok ""
    extract_result := fun _ => .ok ""
    download_dir_exists := fun _ => true
    crate_file_exists := fun _ => true }

/-- The parent package's dependency table: `a` with both a path and a
version. -/
def demo_parent_deps : List (String × TomlValue) :=
  [("a", .table [("path", .str "libs/a"), ("version", .str "1")])]

/-- Crate `a`'s own dependency table: `b` with both a path and a
version. -/
def demo_a_deps : List (String × TomlValue) :=
  [("b", .table [("path", .str "libs/b"), ("version", .str "1")])]

/-- Manifest lookup fixture for the spec-modelled recursive stager. -/
def demo_manifest_of : String → Option (List (String × TomlValue)) :=
  fun n => if n = "a" then some demo_a_deps else none

/-! ## Build/rustdoc status (`add_crate_into_database`, lines 513–546) -/

/-- The `(build_status, rustdoc_status)` block of
`add_crate_into_database`, with its three `Path::exists` tests reified
as booleans: existence of the build log
`{logs_path}/{name}/{name}-{version}.log`, of the output directory
`{destination}/{name}/{version}`, and of the primary target's output
`{destination}/{name}/{version}/{target_name}`. -/
def build_and_rustdoc_status
    (build_log_exists crate_doc_exists target_doc_exists : Bool) : Int × Int :=
  let build_status : Int :=
    if build_log_exists && crate_doc_exists then 1
    else if build_log_exists && !crate_doc_exists then -1
    else 0
  let rustdoc_status : Int := if target_doc_exists then 1 else 0
  (build_status, rustdoc_status)

/-! ## The relational store (`src/db.rs`)

Tables are embedded as lists of rows; the `SERIAL` id columns as
per-table next-id counters.  `INSERT` into a join table carrying a
`UNIQUE` pair constraint fails on a duplicate; everything else the
ingestion executes cannot violate a constraint on the paths it takes,
and is modelled as infallible. -/

/-- A row of `crates` (the columns the ingestion touches). -/
structure CrateRow where
  id : Nat
  name : String
  versions : List String
deriving DecidableEq

/-- The mutable (non-key) columns of a `releases` row, exactly the ones
`add_crate_into_database` inserts and updates. -/
structure ReleaseFields where
  release_time : Option String
  dependencies : List (String × String)
  yanked : Option Bool
  build_status : Int
  rustdoc_status : Int
  test_status : Int
  license : Option String
  repository_url : Option String
  homepage_url : Option String
  description : Option String
  description_long : Option String
  readme : Option String
  authors : List String
  keywords : List String
  have_examples : Bool
  downloads : Option Int
deriving DecidableEq

/-- A row of `releases`: key columns plus the mutable fields. -/
structure ReleaseRow where
  id : Nat
  crate_id : Nat
  version : String
  fields : ReleaseFields
deriving DecidableEq

/-- A row of `keywords`. -/
structure KeywordRow where
  id : Nat
  name : String
  slug : String
deriving DecidableEq

/-- A row of `authors`. -/
structure AuthorRow where
  id : Nat
  name : String
  email : String
  slug : String
deriving DecidableEq

/-- A row of `owners`. -/
structure OwnerRow where
  id : Nat
  login : String
  slug : String
  avatar : String
  name : String
  email : String
deriving DecidableEq

/-- The store state. -/
structure Db where
  crates : List CrateRow
  releases : List ReleaseRow
  authors : List AuthorRow
  keywords : List KeywordRow
  owners : List OwnerRow
  author_rels : List (Nat × Nat)
  keyword_rels : List (Nat × Nat)
  owner_rels : List (Nat × Nat)
  crates_next_id : Nat
  releases_next_id : Nat
  authors_next_id : Nat
  keywords_next_id : Nat
  owners_next_id : Nat
deriving DecidableEq

/-- A database failure surfaced to the ingestion only by the join-table
inserts (whose result the code discards). -/
inductive DbError where
  | UniqueViolation
deriving DecidableEq

/-- `INSERT` into a join table with a `UNIQUE (parent, child)`
constraint: appends the pair, or fails when it is already present. -/
def insert_rel (rels : List (Nat × Nat)) (p : Nat × Nat) :
    Except DbError (List (Nat × Nat)) :=
  if p ∈ rels then .error .UniqueViolation else .ok (rels ++ [p])

/-- `let _ = conn.query("INSERT INTO ..._rels ...")`: the insert's own
result is discarded; a failed insert leaves the table unchanged. -/
def insert_rel_ignore (rels : List (Nat × Nat)) (p : Nat × Nat) :
    List (Nat × Nat) :=
  match insert_rel rels p with
  | .ok rels2 => rels2
  | .error _ => rels

/-! ## Metadata ingestion (`add_crate_into_database`) -/

/-- `cargo::core::manifest::ManifestMetadata`, restricted to the fields
the ingestion reads. -/
structure ManifestMetadata where
  license : Option String
  repository : Option String
  homepage : Option String
  description : Option String
  authors : List String
  keywords : List String
deriving DecidableEq

/-- `struct CrateInfo` from `crte.rs`. -/
structure CrateInfo where
  name : String
  target_name : String
  version : String
  dependencies : List (String × String)
  rustdoc : Option String
  readme : Option String
  metadata : ManifestMetadata
deriving DecidableEq

/-- One element of the registry's `/versions` response array, already
shape-checked (`num`, `created_at`, `yanked`, `downloads`); a response
whose shape checks fail is an `Except.error` at the response level. -/
structure RegVersion where
  num : String
  created_at : String
  yanked : Bool
  downloads : Int
deriving DecidableEq

/-- One element of the registry's `/owners` response array; each field
is extracted with `unwrap_or("")`, so absence is an `Option`. -/
structure OwnerRec where
  avatar : Option String
  email : Option String
  login : Option String
  name : Option String
deriving DecidableEq

/-- The external inputs of one `add_crate_into_database` call:
`slugify` (external crate, an opaque pure function), the two paths of
step 2 (synced source copy, or fresh download/extract/cleanup), the
registry `/versions` and `/owners` responses, and the three
status-relevant filesystem facts. -/
structure IngestInputs where
  slugify : String → String
  source_copy_exists : Bool
  synced_info : Except CrateOpenError CrateInfo
  synced_have_examples : Bool
  download_result : Except String String
  extract_result : Except String String
  fresh_info : Except CrateOpenError CrateInfo
  fresh_have_examples : Bool
  remove_crate_file_result : Except DocBuilderError Unit
  remove_build_dir_result : Except DocBuilderError Unit
  registry_versions : Except CrateOpenError (List RegVersion)
  build_log_exists : Bool
  crate_doc_exists : Bool
  target_doc_exists : Bool
  owners_response : Except ParserError (Option (List OwnerRec))

/-- Step 1 (lines 428–437): `SELECT id FROM crates WHERE name`; insert
the crate by name when absent; the first returned row's id wins. -/
def upsert_crate (db : Db) (name : String) : Db × Nat :=
  match db.crates.find? (fun r => r.name = name) with
  | some r => (db, r.id)
  | none =>
      let id := db.crates_next_id
      ({ db with
          crates := db.crates ++ [{ id := id, name := name, versions := [] }],
          crates_next_id := id + 1 }, id)

/-- Step 2 (lines 439–464): read `CrateInfo` from the synced source
copy when it exists; otherwise download, extract, read, then remove the
`.crate` file and the build directory; every failure aborts. -/
def obtain_crate_info (inp : IngestInputs) :
    Except CrateOpenError (CrateInfo × Bool) :=
  if inp.source_copy_exists then
    match inp.synced_info with
    | .error e => .error e
    | .ok info => .ok (info, inp.synced_have_examples)
  else
    match inp.download_result with
    | .error m => .error (.CommandError m)
    | .ok _ =>
    match inp.extract_result with
    | .error m => .error (.CommandError m)
    | .ok _ =>
    match inp.fresh_info with
    | .error e => .error e
    | .ok info =>
    match inp.remove_crate_file_result with
    | .error e => .error (.DocBuilderError e)
    | .ok _ =>
    match inp.remove_build_dir_result with
    | .error e => .error (.DocBuilderError e)
    | .ok _ => .ok (info, inp.fresh_have_examples)

/-- Model of the `time` crate's
`strptime(s, "%Y-%m-%dT%H:%M:%S")` on the registry's fixed-width
timestamps: the string must begin with `YYYY-MM-DDTHH:MM:SS` (digits in
the digit positions, the literal separators between them); the parsed
prefix is carried as the timestamp value, and `none` is the parse
failure that the source's `.unwrap()` (lines 495–497) turns into a
panic. -/
def strptime (s : String) : Option String :=
  match s.toList with
  | y1 :: y2 :: y3 :: y4 :: '-' :: m1 :: m2 :: '-' :: d1 :: d2 :: 'T' ::
      h1 :: h2 :: ':' :: n1 :: n2 :: ':' :: s1 :: s2 :: _ =>
      if [y1, y2, y3, y4, m1, m2, d1, d2, h1, h2, n1, n2, s1, s2].all Char.isDigit
      then some (String.mk [y1, y2, y3, y4, '-', m1, m2, '-', d1, d2, 'T',
                            h1, h2, ':', n1, n2, ':', s1, s2])
      else none
  | _ => none

/-- Step 3 (lines 470–510): scan the `/versions` array for the entry
whose `num` equals this version (`break` on the first hit); absence
leaves all three values unset.  On a hit, `created_at` goes through
`strptime(...).unwrap()`: a malformed timestamp panics (the outer
`none`). -/
def registry_release_data (regVersions : List RegVersion) (version : String) :
    Option (Option String × Option Bool × Option Int) :=
  match regVersions.find? (fun v => v.num = version) with
  | some v =>
      match strptime v.created_at with
      | none => none
      | some t => some (some t, some v.yanked, some v.downloads)
  | none => some (none, none, none)

/-- Step 5 (lines 552–635): `SELECT id FROM releases WHERE crate_id AND
version`; insert when absent (returning the fresh id), else `UPDATE`
every mutable field of the matching rows in place and keep the
previously selected id. -/
def upsert_release (db : Db) (crate_id : Nat) (version : String)
    (f : ReleaseFields) : Db × Nat :=
  match db.releases.find? (fun r => r.crate_id = crate_id && r.version = version) with
  | some r =>
      ({ db with
          releases := db.releases.map (fun q =>
            if q.crate_id = crate_id && q.version = version then
              { q with fields := f }
            else q) }, r.id)
  | none =>
      let id := db.releases_next_id
      ({ db with
          releases := db.releases ++
            [{ id := id, crate_id := crate_id, version := version, fields := f }],
          releases_next_id := id + 1 }, id)

/-- Step 6 body (lines 640–656), for one keyword: slugify, upsert the
keyword row by slug, then insert the `(release, keyword)` relationship
discarding its result. -/
def add_keyword (slugify : String → String) (db : Db) (release_id : Nat)
    (keyword : String) : Db :=
  let slug := slugify keyword
  let found := db.keywords.find? (fun k => k.slug = slug)
  match found with
  | some k =>
      { db with keyword_rels := insert_rel_ignore db.keyword_rels (release_id, k.id) }
  | none =>
      let id := db.keywords_next_id
      { db with
          keywords := db.keywords ++ [{ id := id, name := keyword, slug := slug }],
          keywords_next_id := id + 1,
          keyword_rels := insert_rel_ignore db.keyword_rels (release_id, id) }

/-- Step 7 body (lines 659–682), for one author string: parse with the
author regex (no match skips the string entirely), trim, slugify the
name, upsert the author row by slug, then insert the `(release,
author)` relationship discarding its result. -/
def add_author (slugify : String → String) (db : Db) (release_id : Nat)
    (author : String) : Db :=
  match parse_author author with
  | none => db
  | some (name, email) =>
      let slug := slugify name
      let found := db.authors.find? (fun a => a.slug = slug)
      match found with
      | some a =>
          { db with author_rels := insert_rel_ignore db.author_rels (release_id, a.id) }
      | none =>
          let id := db.authors_next_id
          { db with
              authors := db.authors ++
                [{ id := id, name := name, email := email, slug := slug }],
              authors_next_id := id + 1,
              author_rels := insert_rel_ignore db.author_rels (release_id, id) }

/-- Step 8 body (lines 699–730), for one owner record: extract each
field with `unwrap_or("")`, slugify the display name, skip the record
when the login is empty, look the owner row up by `login` only, insert
it when absent, then insert the `(crate, owner)` relationship
discarding its result.  The owners insert (lines 720–723) is wrapped in
`try!` and `owners.slug` is `UNIQUE` (`db.rs:75`): a new login whose
slugified display name equals an existing row's slug violates that
constraint and the failure propagates (as a `DbError`), aborting the
ingestion.  (A duplicate login cannot occur on this path: the lookup by
login just missed.) -/
def add_owner (slugify : String → String) (db : Db) (crate_id : Nat)
    (o : OwnerRec) : Except CrateOpenError Db :=
  let avatar := o.avatar.getD ""
  let email := o.email.getD ""
  let login := o.login.getD ""
  let name := o.name.getD ""
  let slug := slugify name
  if login = "" then .ok db
  else
    let found := db.owners.find? (fun w => w.login = login)
    match found with
    | some w =>
        .ok { db with owner_rels := insert_rel_ignore db.owner_rels (crate_id, w.id) }
    | none =>
        if db.owners.any (fun w => w.slug = slug) then
          .error (.DbError
            { msg := "duplicate key value violates unique constraint owners_slug_key" })
        else
          let id := db.owners_next_id
          .ok { db with
              owners := db.owners ++
                [{ id := id, login := login, slug := slug, avatar := avatar,
                   name := name, email := email }],
              owners_next_id := id + 1,
              owner_rels := insert_rel_ignore db.owner_rels (crate_id, id) }

/-- Step 9 (lines 737–756): read the crate row's version list, append
this version if absent, write the list back (the write's result is
discarded).  The row is present whenever `crate_id` came from step 1;
were it absent, the source's `rows.get(0)` would panic. -/
def update_versions (db : Db) (crate_id : Nat) (version : String) : Db :=
  match db.crates.find? (fun r => r.id = crate_id) with
  | none => db
  | some r =>
      let versions :=
        if r.versions.contains version then r.versions else r.versions ++ [version]
      { db with
          crates := db.crates.map (fun q =>
            if q.id = crate_id then { q with versions := versions } else q) }

/-- The `ReleaseFields` values steps 3–4 assemble for the release
upsert: the matched registry data (`rtd`, the successful result of
`registry_release_data`), the filesystem statuses, the constant
`test_status = 0`, and the manifest-derived columns
(`description_long` is the module documentation text). -/
def mk_release_fields (inp : IngestInputs) (crate_info : CrateInfo)
    (have_examples : Bool) (rtd : Option String × Option Bool × Option Int) :
    ReleaseFields :=
  let statuses := build_and_rustdoc_status inp.build_log_exists
    inp.crate_doc_exists inp.target_doc_exists
  { release_time := rtd.1
    dependencies := crate_info.dependencies
    yanked := rtd.2.1
    build_status := statuses.1
    rustdoc_status := statuses.2
    test_status := 0
    license := crate_info.metadata.license
    repository_url := crate_info.metadata.repository
    homepage_url := crate_info.metadata.homepage
    description := crate_info.metadata.description
    description_long := crate_info.rustdoc
    readme := crate_info.readme
    authors := crate_info.metadata.authors
    keywords := crate_info.metadata.keywords
    have_examples := have_examples
    downloads := rtd.2.2 }

/-- Step 6: the `for keyword in crate_info.metadata.keywords` loop. -/
def keywords_phase (slugify : String → String) (db : Db) (release_id : Nat)
    (keywords : List String) : Db :=
  keywords.foldl (fun d kw => add_keyword slugify d release_id kw) db

/-- Step 7: the `for author in crate_info.metadata.authors` loop. -/
def authors_phase (slugify : String → String) (db : Db) (release_id : Nat)
    (authors : List String) : Db :=
  authors.foldl (fun d a => add_author slugify d release_id a) db

/-- Step 8's `for owner in owners` loop: each owner step may abort
(the `try!`-wrapped owners insert), and the loop stops at the first
failure. -/
def owners_loop (slugify : String → String) (crate_id : Nat) :
    Db → List OwnerRec → Except CrateOpenError Db
  | db, [] => .ok db
  | db, o :: rest =>
      match add_owner slugify db crate_id o with
      | .error e => .error e
      | .ok db2 => owners_loop slugify crate_id db2 rest

/-- Step 8: the owner loop runs only when the response's `users` field
is an array (`if let Some(owners)`). -/
def owners_phase (slugify : String → String) (db : Db) (crate_id : Nat) :
    Option (List OwnerRec) → Except CrateOpenError Db
  | some owners => owners_loop slugify crate_id db owners
  | none => .ok db

/-- The infallible store prefix of the ingestion — steps 1 (crate
upsert) and 5–7 (release upsert, keyword loop, author loop) — named so
that theorems can speak about the store state reaching the owner
step. -/
def pre_owners (c : Crate) (inp : IngestInputs) (info : CrateInfo)
    (hx : Bool) (rtd : Option String × Option Bool × Option Int) (db : Db) : Db :=
  let step1 := upsert_crate db c.name
  let f := mk_release_fields inp info hx rtd
  let step5 := upsert_release step1.1 step1.2 info.version f
  let db6 := keywords_phase inp.slugify step5.1 step5.2 info.metadata.keywords
  authors_phase inp.slugify db6 step5.2 info.metadata.authors

/-- `Crate::add_crate_into_database` for one `(crate, version)` pair
(`version` stands for `self.versions[version_index]`), over the
reified store and external inputs.  The outer `Option` carries the
source's panics: `none` is the `strptime(...).unwrap()` panic of step 3
(lines 495–497).  Steps 1–5 abort on failure, as does the
`try!`-wrapped owners insert of step 8; the remaining loops of steps
6–9 run the per-item helpers in order (`pre_owners` is steps 1 and
5–7). -/
def Crate.add_crate_into_database (c : Crate) (version : String)
    (inp : IngestInputs) (db : Db) : Option (Except CrateOpenError Db) :=
  let crate_id := (upsert_crate db c.name).2
  match obtain_crate_info inp with
  | .error e => some (.error e)
  | .ok (crate_info, have_examples) =>
  match inp.registry_versions with
  | .error e => some (.error e)
  | .ok regs =>
  match registry_release_data regs version with
  | none => none
  | some rtd =>
  let db7 := pre_owners c inp crate_info have_examples rtd db
  match inp.owners_response with
  | .error e => some (.error (.ParseError e))
  | .ok owners? =>
  match owners_phase inp.slugify db7 crate_id owners? with
  | .error e => some (.error e)
  | .ok db8 => some (.ok (update_versions db8 crate_id version))

/-! ## Store invariants and step postconditions -/

/-- The uniqueness facts the schema's constraints guarantee, as far as
the ingestion relies on them: unique crate names and ids (with ids
below the id counter), unique `(crate_id, version)` release keys, and
no duplicate rows in the three join tables. -/
structure DbInv (db : Db) : Prop where
  crate_names : db.crates.Pairwise (fun a b => a.name ≠ b.name)
  crate_ids : db.crates.Pairwise (fun a b => a.id ≠ b.id)
  crate_ids_lt : ∀ r ∈ db.crates, r.id < db.crates_next_id
  release_keys : db.releases.Pairwise
    (fun a b => ¬(a.crate_id = b.crate_id ∧ a.version = b.version))
  kw_rels_nodup : db.keyword_rels.Nodup
  au_rels_nodup : db.author_rels.Nodup
  ow_rels_nodup : db.owner_rels.Nodup

/-- Step 6 postcondition for one keyword: the slug's keyword row is the
one the lookup finds and the `(release, keyword)` pair is present. -/
def kwDone (slugify : String → String) (db : Db) (release_id : Nat)
    (kw : String) : Prop :=
  ∃ k, db.keywords.find? (fun x => x.slug = slugify kw) = some k ∧
    (release_id, k.id) ∈ db.keyword_rels

/-- Step 7 postcondition for one author string (trivial for a string
the pattern rejects). -/
def auDone (slugify : String → String) (db : Db) (release_id : Nat)
    (author : String) : Prop :=
  match parse_author author with
  | none => True
  | some (name, _) =>
      ∃ a, db.authors.find? (fun x => x.slug = slugify name) = some a ∧
        (release_id, a.id) ∈ db.author_rels

/-- Step 8 postcondition for one owner record (trivial for an empty
login). -/
def owDone (slugify : String → String) (db : Db) (crate_id : Nat)
    (o : OwnerRec) : Prop :=
  if o.login.getD "" = "" then True
  else
    ∃ w, db.owners.find? (fun x => x.login = o.login.getD "") = some w ∧
      (crate_id, w.id) ∈ db.owner_rels

/-! ## Concrete ingestion scenario -/

/-- The empty store. -/
def empty_db : Db :=
  { crates := [], releases := [], authors := [], keywords := [], owners := []
    author_rels := [], keyword_rels := [], owner_rels := []
    crates_next_id := 0, releases_next_id := 0, authors_next_id := 0
    keywords_next_id := 0, owners_next_id := 0 }

/-- A concrete manifest snapshot. -/
def demo_crate_info : CrateInfo :=
  { name := "rand", target_name := "rand", version := "1.0"
    dependencies := [("libc", "^0.2")]
    rustdoc := some "module docs", readme := none
    metadata :=
      { license := some "MIT", repository := none, homepage := none
        description := some "randomness"
        authors := ["Jane Doe <jane@example.com>", "Jane Doe"]
        keywords := ["random", "rng"] } }

/-- Concrete external inputs on which every fallible step succeeds. -/
def demo_ok_inputs : IngestInputs :=
  { slugify := fun s => s
    source_copy_exists := true
    synced_info := .ok demo_crate_info
    synced_have_examples := true
    download_result := .ok ""
    extract_result := .ok ""
    fresh_info := .ok demo_crate_info
    fresh_have_examples := true
    remove_crate_file_result := .ok ()
    remove_build_dir_result := .ok ()
    registry_versions := .ok
      [{ num := "1.0", created_at := "2016-01-01T00:00:00", yanked := false,
         downloads := 5 }]
    build_log_exists := true
    crate_doc_exists := true
    target_doc_exists := true
    owners_response := .ok (some
      [{ avatar := some "av", email := some "jane@example.com",
         login := some "jane", name := some "Jane" }]) }

/-- The same inputs with a failing manifest acquisition. -/
def demo_err_inputs : IngestInputs :=
  { demo_ok_inputs with synced_info := .error .FileNotFound }

/-- The store a first ingestion of the demo crate produces from the
empty store (extracted from the run's successful result). -/
def demo_ingested_db : Db :=
  match Crate.add_crate_into_database { name := "rand", versions := ["1.0"] }
      "1.0" demo_ok_inputs empty_db with
  | some (.ok db) => db
  | _ => empty_db

end Cratesfyi

namespace Cratesfyi

/-! ## Theorems: version lookup (C4, C10) -/

/-- Helper: the scanning loop of `version_starts_with` computes
`List.findIdx?` of the `startsWith` predicate, shifted by the start
index. -/
theorem version_starts_with_from_eq (l : List String) (i : Nat) (version : String) :
    Crate.version_starts_with_from l i version =
      (l.findIdx? (fun s => str_starts_with s version)).map (fun j => i + j) := by
  induction l generalizing i with
  | nil => rfl
  | cons v rest ih =>
      simp only [Crate.version_starts_with_from, List.findIdx?_cons]
      cases h : str_starts_with v version with
      | true => simp [h]
      | false =>
          simp only [Bool.false_eq_true, if_false]
          rw [ih, List.findIdx?_succ, Option.map_map]
          cases rest.findIdx? (fun s => str_starts_with s version) with
          | none => rfl
          | some j =>
              show some (i + 1 + j) = some (i + (j + 1))
              congr 1
              omega

/-- **C4**: `version_starts_with` maps `"*"` to index 0 for every crate;
for any other argument it returns the index of the first stored version
string that literally starts with the argument (`List.findIdx?` of the
lexical starts-with test), and `none` when no version starts with it.
The match is purely lexical: the prefix `"1.2"` matches the version
`"1.20.0"`. -/
theorem version_starts_with_spec :
    (∀ (c : Crate) (version : String),
      c.version_starts_with version =
        if version = "*" then some 0
        else c.versions.findIdx? (fun s => str_starts_with s version)) ∧
    (Crate.new "demo" ["1.20.0"]).version_starts_with "1.2" = some 0 := by
  constructor
  · intro c version
    by_cases h : version = "*"
    · simp [Crate.version_starts_with, h]
    · simp [Crate.version_starts_with, h, version_starts_with_from_eq]
  · decide

/-- **C10**: for a crate whose `versions` list is empty,
`version_starts_with "*"` still returns `some 0`; that index is out of
bounds, and `canonical_name 0` — which indexes `versions` without a
guard — has no value (the Rust code panics there, as would the
downstream `download_crate`/`extract_crate` uses of the same index). -/
theorem version_starts_with_star_empty_unsafe (name : String) :
    (Crate.new name []).version_starts_with "*" = some 0 ∧
    (Crate.new name []).versions.get? 0 = none ∧
    (Crate.new name []).canonical_name 0 = none := by
  refine ⟨rfl, rfl, rfl⟩

/-! ## Theorems: index-file resolution (C5) -/

/-- Helper: running the line loop over a block of successfully read and
parsed lines appends the parsed versions in file order and overwrites
the name with the last parsed name. -/
theorem index_file_loop_append (parse : String → Except ParserError Json)
    {lines : List String} {recs : List (String × String)}
    (h : List.Forall₂
      (fun line r => Crate.parse_cargo_index_line parse line = .ok r) lines recs) :
    ∀ (tail : List (Except IoError String)) (name : String) (versions : List String),
      Crate.index_file_loop parse (lines.map Except.ok ++ tail) name versions =
        Crate.index_file_loop parse tail ((recs.map Prod.fst).getLastD name)
          (versions ++ recs.map Prod.snd) := by
  induction h with
  | nil => intro tail name versions; simp
  | @cons line r lines' recs' hpair _ ih =>
      intro tail name versions
      obtain ⟨cn, vs⟩ := r
      simp only [List.map_cons, List.cons_append, Crate.index_file_loop, hpair,
        List.append_eq]
      rw [ih tail cn (versions ++ [vs])]
      rw [List.getLastD_cons, List.append_assoc]
      rfl

/-- **C5**: `from_cargo_index_file` on a file whose lines are appended
oldest-first yields the versions in exactly reversed on-disk order, so
`versions.head?` is the last appended line's version; an open failure
surfaces as `IoError`, a line-read failure as `IoError`, invalid JSON as
`ParseError`, a non-object line as `NotObject`, and a missing
`name`/`vers` string field as `NameNotFound`/`VersNotFound`. -/
theorem from_cargo_index_file_spec :
    (∀ (parse : String → Except ParserError Json) (lines : List String)
       (recs : List (String × String)),
      List.Forall₂
        (fun line r => Crate.parse_cargo_index_line parse line = .ok r) lines recs →
      ∃ c, Crate.from_cargo_index_file parse (.ok (lines.map Except.ok)) = .ok c ∧
        c.versions = (recs.map Prod.snd).reverse ∧
        c.versions.head? = (recs.map Prod.snd).getLast?) ∧
    (∀ (parse : String → Except ParserError Json) (e : IoError),
      Crate.from_cargo_index_file parse (.error e) = .error (.IoError e)) ∧
    (∀ (parse : String → Except ParserError Json) (lines : List String)
       (recs : List (String × String)) (e : IoError)
       (post : List (Except IoError String)),
      List.Forall₂
        (fun line r => Crate.parse_cargo_index_line parse line = .ok r) lines recs →
      Crate.from_cargo_index_file parse
        (.ok (lines.map Except.ok ++ Except.error e :: post)) = .error (.IoError e)) ∧
    (∀ (parse : String → Except ParserError Json) (lines : List String)
       (recs : List (String × String)) (badline : String)
       (err : CrateOpenError) (post : List (Except IoError String)),
      List.Forall₂
        (fun line r => Crate.parse_cargo_index_line parse line = .ok r) lines recs →
      Crate.parse_cargo_index_line parse badline = .error err →
      Crate.from_cargo_index_file parse
        (.ok (lines.map Except.ok ++ Except.ok badline :: post)) = .error err) ∧
    (∀ (parse : String → Except ParserError Json) (line : String) (e : ParserError),
      parse (str_trim line) = .error e →
      Crate.parse_cargo_index_line parse line = .error (.ParseError e)) ∧
    (∀ (parse : String → Except ParserError Json) (line : String) (j : Json),
      parse (str_trim line) = .ok j → j.as_object = none →
      Crate.parse_cargo_index_line parse line = .error .NotObject) ∧
    (∀ (parse : String → Except ParserError Json) (line : String) (j : Json)
       (obj : List (String × Json)),
      parse (str_trim line) = .ok j → j.as_object = some obj →
      (Json.get obj "name").bind Json.as_string = none →
      Crate.parse_cargo_index_line parse line = .error .NameNotFound) ∧
    (∀ (parse : String → Except ParserError Json) (line : String) (j : Json)
       (obj : List (String × Json)) (nm : String),
      parse (str_trim line) = .ok j → j.as_object = some obj →
      (Json.get obj "name").bind Json.as_string = some nm →
      (Json.get obj "vers").bind Json.as_string = none →
      Crate.parse_cargo_index_line parse line = .error .VersNotFound) := by
  refine ⟨?_, ?_, ?_, ?_, ?_, ?_, ?_, ?_⟩
  · intro parse lines recs h
    have hloop := index_file_loop_append parse h [] "" []
    refine ⟨⟨(recs.map Prod.fst).getLastD "", (recs.map Prod.snd).reverse⟩, ?_, rfl, ?_⟩
    · simp only [Crate.from_cargo_index_file]
      rw [List.append_nil] at hloop
      rw [hloop]
      rfl
    · simp [List.head?_reverse]
  · intro parse e; rfl
  · intro parse lines recs e post h
    simp only [Crate.from_cargo_index_file]
    rw [index_file_loop_append parse h (Except.error e :: post) "" []]
    rfl
  · intro parse lines recs badline err post h hbad
    simp only [Crate.from_cargo_index_file]
    rw [index_file_loop_append parse h (Except.ok badline :: post) "" []]
    simp [Crate.index_file_loop, hbad]
  · intro parse line e hp
    simp [Crate.parse_cargo_index_line, hp]
  · intro parse line j hp hobj
    simp [Crate.parse_cargo_index_line, hp, hobj]
  · intro parse line j obj hp hobj hname
    simp [Crate.parse_cargo_index_line, hp, hobj, hname]
  · intro parse line j obj nm hp hobj hname hvers
    simp [Crate.parse_cargo_index_line, hp, hobj, hname, hvers]

/-- Witness for the C5 theorem at a concrete one-line file. -/
theorem from_cargo_index_file_spec_witness :
    ∃ c, Crate.from_cargo_index_file
        (fun _ => Except.ok (Json.obj [("name", Json.str "rand"), ("vers", Json.str "0.1.0")]))
        (.ok (["line1"].map Except.ok)) = .ok c ∧
      c.versions = ([("rand", "0.1.0")].map Prod.snd).reverse ∧
      c.versions.head? = ([("rand", "0.1.0")].map Prod.snd).getLast? :=
  from_cargo_index_file_spec.1 _ ["line1"] [("rand", "0.1.0")]
    (List.Forall₂.cons rfl List.Forall₂.nil)

/-! ## Theorems: index-path resolution (C8) -/

/-- Helper: when the tree below a directory holds no eligible file named
`name`, the search of that directory's entries fails with
`FileNotFound`. -/
theorem index_path_search_of_no_match (parse : String → Except ParserError Json)
    (name : String) :
    ∀ (pathStr : String) (entries : List IndexTree),
      index_path_matches name pathStr entries = [] →
      index_path_search parse name pathStr entries = .error .FileNotFound := by
  intro P E
  induction P, E using index_path_search.induct parse name with
  | case1 x =>
      intro _
      rw [index_path_search.eq_def]
  | case2 pathStr e rest hskip ih =>
      intro hm
      rw [index_path_matches.eq_def] at hm
      simp only [hskip, if_true] at hm
      rw [index_path_search.eq_def]
      simp only [hskip, if_true]
      exact ih hm
  | case3 pathStr rest dn entries c hok hns ih =>
      intro hm
      rw [index_path_matches.eq_def] at hm
      simp [hns] at hm
      rw [ih hm.1] at hok
      cases hok
  | case4 pathStr rest dn entries a herr hns ih ih2 =>
      intro hm
      rw [index_path_matches.eq_def] at hm
      simp [hns] at hm
      rw [index_path_search.eq_def]
      simp [hns, herr]
      exact ih2 hm.2
  | case5 pathStr rest content hns =>
      intro hm
      rw [index_path_matches.eq_def] at hm
      simp [hns] at hm
  | case6 pathStr rest fname content hne hns ih =>
      intro hm
      rw [index_path_matches.eq_def] at hm
      simp [hns, hne] at hm
      rw [index_path_search.eq_def]
      simp [hns, hne]
      exact ih hm

/-- Helper: the first eligible file named `name` in depth-first order
wins — if its content resolves to `c`, the search returns `c`. -/
theorem index_path_search_first_match (parse : String → Except ParserError Json)
    (name : String) (c : Crate) :
    ∀ (pathStr : String) (entries : List IndexTree),
      ∀ (content : OpenResult) (tailms : List OpenResult),
      index_path_matches name pathStr entries = content :: tailms →
      Crate.from_cargo_index_file parse content = .ok c →
      index_path_search parse name pathStr entries = .ok c := by
  intro P E
  induction P, E using index_path_search.induct parse name with
  | case1 x =>
      intro content tailms hm
      rw [index_path_matches.eq_def] at hm
      cases hm
  | case2 pathStr e rest hskip ih =>
      intro content tailms hm hres
      rw [index_path_matches.eq_def] at hm
      simp only [hskip, if_true] at hm
      rw [index_path_search.eq_def]
      simp only [hskip, if_true]
      exact ih content tailms hm hres
  | case3 pathStr rest dn entries c0 hok hns ih =>
      intro content tailms hm hres
      rw [index_path_matches.eq_def] at hm
      simp [hns] at hm
      rw [index_path_search.eq_def]
      simp [hns, hok]
      cases hE : index_path_matches name (pathStr ++ "/" ++ dn) entries with
      | nil =>
          rw [index_path_search_of_no_match parse name _ entries hE] at hok
          cases hok
      | cons h t =>
          rw [hE, List.cons_append] at hm
          injection hm with h1 h2
          have hok2 := ih h t hE (by rw [h1]; exact hres)
          rw [hok2] at hok
          injection hok with hc
          rw [hc]
  | case4 pathStr rest dn entries a herr hns ih ih2 =>
      intro content tailms hm hres
      rw [index_path_matches.eq_def] at hm
      simp [hns] at hm
      rw [index_path_search.eq_def]
      simp [hns, herr]
      cases hE : index_path_matches name (pathStr ++ "/" ++ dn) entries with
      | nil =>
          rw [hE, List.nil_append] at hm
          exact ih2 content tailms hm hres
      | cons h t =>
          rw [hE, List.cons_append] at hm
          injection hm with h1 h2
          rw [ih h t hE (by rw [h1]; exact hres)] at herr
          cases herr
  | case5 pathStr rest content0 hns =>
      intro content tailms hm hres
      rw [index_path_matches.eq_def] at hm
      simp [hns] at hm
      rw [index_path_search.eq_def]
      simp [hns]
      rw [hm.1]
      exact hres
  | case6 pathStr rest fname content0 hne hns ih =>
      intro content tailms hm hres
      rw [index_path_matches.eq_def] at hm
      simp [hns, hne] at hm
      rw [index_path_search.eq_def]
      simp [hns, hne]
      exact ih content tailms hm hres

/-- **C8**: `from_cargo_index_path` performs a depth-first search of the
index directory tree for a file whose name exactly equals the requested
package name; entries matching the skip test (full path containing
`".git"`, or file name `"config.json"`) are skipped both by the search
and in the match list; the first match in depth-first order wins (its
file is resolved and its resolution returned); and when no eligible
match exists the search fails with `FileNotFound`. -/
theorem from_cargo_index_path_spec :
    (∀ (parse : String → Except ParserError Json) (name pathStr : String)
       (e : IndexTree) (rest : List IndexTree),
      skip_entry pathStr e = true →
      index_path_search parse name pathStr (e :: rest) =
        index_path_search parse name pathStr rest ∧
      index_path_matches name pathStr (e :: rest) =
        index_path_matches name pathStr rest) ∧
    (∀ (parse : String → Except ParserError Json) (name rootPath dname : String)
       (entries : List IndexTree),
      index_path_matches name rootPath entries = [] →
      Crate.from_cargo_index_path parse name rootPath (.dir dname entries) =
        .error .FileNotFound) ∧
    (∀ (parse : String → Except ParserError Json) (name rootPath dname : String)
       (entries : List IndexTree) (content : OpenResult)
       (tailms : List OpenResult) (c : Crate),
      index_path_matches name rootPath entries = content :: tailms →
      Crate.from_cargo_index_file parse content = .ok c →
      Crate.from_cargo_index_path parse name rootPath (.dir dname entries) =
        .ok c) := by
  refine ⟨?_, ?_, ?_⟩
  · intro parse name pathStr e rest hskip
    constructor
    · rw [index_path_search.eq_def]
      simp [hskip]
    · rw [index_path_matches.eq_def]
      simp [hskip]
  · intro parse name rootPath dname entries hm
    exact index_path_search_of_no_match parse name rootPath entries hm
  · intro parse name rootPath dname entries content tailms c hm hres
    exact index_path_search_first_match parse name c rootPath entries content tailms hm hres

/-- Witness for the C8 theorem on a concrete one-file index tree. -/
theorem from_cargo_index_path_spec_witness :
    Crate.from_cargo_index_path
      (fun _ => Except.ok (Json.obj [("name", Json.str "rand"), ("vers", Json.str "0.1.0")]))
      "rand" "idx"
      (.dir "index" [IndexTree.file "rand" (Except.ok [Except.ok "line"])]) =
      .ok (Crate.new "rand" ["0.1.0"]) := by
  apply from_cargo_index_path_spec.2.2 _ "rand" "idx" "index" _
    (Except.ok [Except.ok "line"]) [] (Crate.new "rand" ["0.1.0"])
  · have hs : skip_entry "idx" (IndexTree.file "rand" (Except.ok [Except.ok "line"])) = false := by
      decide
    rw [index_path_matches.eq_def]
    simp only [hs, Bool.false_eq_true, if_false]
    rw [index_path_matches.eq_def]
    simp
  · rfl

/-! ## Theorems: dependency staging (C2) -/

/-- Helper: one pass of the dependency-table loop appends the entry's
contribution, if any. -/
theorem local_dependency_step_eq (parse : String → Except ParserError Json)
    (indexPath : String) (indexTree : IndexTree)
    (acc : List (Crate × Nat × String)) (kv : String × TomlValue) :
    local_dependency_step parse indexPath indexTree acc kv =
      acc ++ (local_dependency_of parse indexPath indexTree kv).toList := by
  unfold local_dependency_step local_dependency_of
  cases h1 : kv.2.as_table with
  | none => simp [h1]
  | some kt =>
      cases h2 : (toml_get kt "path").bind TomlValue.as_str with
      | none => simp [h1, h2]
      | some path =>
          cases h3 : (toml_get kt "version").bind TomlValue.as_str with
          | none => simp [h1, h2, h3]
          | some version =>
              cases h4 : Crate.from_cargo_index_path parse kv.1 indexPath indexTree with
              | error e => simp [h1, h2, h3, h4]
              | ok dep_crate =>
                  cases h5 : dep_crate.version_starts_with version with
                  | none => simp [h1, h2, h3, h4, h5]
                  | some vi => simp [h1, h2, h3, h4, h5]

/-- Helper: `get_local_dependencies` collects exactly the entries'
contributions, in table order. -/
theorem get_local_dependencies_eq (parse : String → Except ParserError Json)
    (indexPath : String) (indexTree : IndexTree)
    (table : List (String × TomlValue)) :
    Crate.get_local_dependencies parse indexPath indexTree table =
      some (table.filterMap (local_dependency_of parse indexPath indexTree)) := by
  have key : ∀ (t : List (String × TomlValue)) (acc : List (Crate × Nat × String)),
      t.foldl (local_dependency_step parse indexPath indexTree) acc =
        acc ++ t.filterMap (local_dependency_of parse indexPath indexTree) := by
    intro t
    induction t with
    | nil => intro acc; simp
    | cons kv rest ih =>
        intro acc
        rw [List.foldl_cons, local_dependency_step_eq, ih, List.filterMap_cons]
        cases local_dependency_of parse indexPath indexTree kv <;> simp
  unfold Crate.get_local_dependencies
  rw [key]
  simp

/-- Helper: staging succeeds with the concatenation of the per-
dependency traces when every dependency stages successfully. -/
theorem handle_local_dependencies_ok (fs : StageFs) (root_dir : String)
    {ldeps : List (Crate × Nat × String)} {traces : List (List FsAction)}
    (h : List.Forall₂ (fun d t => stage_one fs root_dir d = some (.ok t))
      ldeps traces) :
    handle_local_dependencies fs ldeps root_dir = some (.ok traces.flatten) := by
  induction h with
  | nil => rfl
  | @cons d t ld tr hdt htail ih =>
      simp [handle_local_dependencies, hdt, ih]

/-- Helper: on a filesystem where the download and extraction commands
succeed, the extraction directory appears, the archive file is present
and the relocation target already exists, one dependency's staging — of
a dependency whose matched version index is in bounds, so the unchecked
indexing does not panic — performs exactly: download, extract, copy
into the declared relative path under the parent directory, remove the
extraction directory, remove the archive. -/
theorem stage_one_ok (fs : StageFs) (root_dir : String) (dep : Crate × Nat × String)
    (hvi : dep.2.1 < dep.1.versions.length)
    (hdl : ∀ s, fs.download_result s = .ok "")
    (hex : ∀ s, fs.extract_result s = .ok "")
    (hdir : ∀ s, fs.download_dir_exists s = true)
    (hcf : ∀ s, fs.crate_file_exists s = true)
    (hpe : ∀ s, fs.path_exists s = true) :
    stage_one fs root_dir dep = some (.ok
      [.download dep.1.name (dep.1.versions.getD dep.2.1 ""),
       .extract dep.1.name (dep.1.versions.getD dep.2.1 ""),
       .copy_files (dep.1.name ++ "-" ++ dep.1.versions.getD dep.2.1 "")
         (root_dir ++ "/" ++ dep.2.2),
       .remove_dir_all (dep.1.name ++ "-" ++ dep.1.versions.getD dep.2.1 ""),
       .remove_file (dep.1.name ++ "-" ++ dep.1.versions.getD dep.2.1 "" ++ ".crate")]) := by
  obtain ⟨v, hv⟩ : ∃ v, dep.1.versions[dep.2.1]? = some v :=
    ⟨_, List.getElem?_eq_getElem hvi⟩
  have hveq : v = dep.1.versions.getD dep.2.1 "" := by
    rw [List.getD_eq_getElem?_getD, hv]
    rfl
  simp only [stage_one]
  rw [hv, ← hveq]
  simp [hdl, hex, hdir, hcf, hpe]

/-- Helper: the downloads in a concatenation of per-dependency traces
are the staged dependencies' `(name, version)` pairs. -/
theorem downloads_of_staged (root_dir : String)
    (l : List (Crate × Nat × String)) :
    downloads_of (l.map (staged_actions root_dir)).flatten =
      l.map (fun dep => (dep.1.name, dep.1.versions.getD dep.2.1 "")) := by
  induction l with
  | nil => rfl
  | cons d rest ih =>
      simp only [List.map_cons, List.flatten_cons, downloads_of,
        List.filterMap_append] at ih ⊢
      rw [ih]
      rfl

/-- Helper: unfolding `download_dependencies` on a parsed manifest with
a `dependencies` table. -/
theorem download_dependencies_table (parse : String → Except ParserError Json)
    (iP : String) (iT : IndexTree) (fs : StageFs) (root : String)
    (table : List (String × TomlValue)) :
    download_dependencies parse iP iT fs
        (.ok (some [("dependencies", TomlValue.table table)])) root =
      handle_local_dependencies fs
        (table.filterMap (local_dependency_of parse iP iT)) root := by
  unfold download_dependencies
  simp [toml_get, TomlValue.as_table, get_local_dependencies_eq]

/-- **C2 amended**: the staged dependencies are exactly the manifest
entries declared with both a string `path` and a string `version` whose
index lookup succeeds and whose version prefix-matches
(`local_dependency_of`); for each of them — when the external commands
succeed, the relevant paths exist, and each staged dependency's matched
version index is within its resolved versions list (the source indexes
`versions[version_index]` unchecked and otherwise panics, cf. C10) —
the stager downloads and extracts the archive, copies the extracted
tree into the declared relative path under the parent directory, then
removes the extraction directory and the archive file; the stager does
**not** recurse into a staged dependency's own local dependencies (the
trace below is the whole trace); and a table none of whose entries
qualifies — in particular one whose entries have a `path` but no
`version` — causes no filesystem action at all. -/
theorem stager_spec :
    (∀ (parse : String → Except ParserError Json) (iP : String) (iT : IndexTree)
       (table : List (String × TomlValue)),
      Crate.get_local_dependencies parse iP iT table =
        some (table.filterMap (local_dependency_of parse iP iT))) ∧
    (∀ (parse : String → Except ParserError Json) (iP : String) (iT : IndexTree)
       (k : String) (kt : List (String × TomlValue)),
      (toml_get kt "version").bind TomlValue.as_str = none →
      local_dependency_of parse iP iT (k, TomlValue.table kt) = none) ∧
    (∀ (parse : String → Except ParserError Json) (iP : String) (iT : IndexTree)
       (fs : StageFs) (root : String) (table : List (String × TomlValue)),
      (∀ dep ∈ table.filterMap (local_dependency_of parse iP iT),
        dep.2.1 < dep.1.versions.length) →
      (∀ s, fs.download_result s = .ok "") →
      (∀ s, fs.extract_result s = .ok "") →
      (∀ s, fs.download_dir_exists s = true) →
      (∀ s, fs.crate_file_exists s = true) →
      (∀ s, fs.path_exists s = true) →
      download_dependencies parse iP iT fs
          (.ok (some [("dependencies", TomlValue.table table)])) root =
        some (.ok ((table.filterMap (local_dependency_of parse iP iT)).map
          (staged_actions root)).flatten) ∧
      downloads_of ((table.filterMap (local_dependency_of parse iP iT)).map
          (staged_actions root)).flatten =
        (table.filterMap (local_dependency_of parse iP iT)).map
          (fun dep => (dep.1.name, dep.1.versions.getD dep.2.1 ""))) ∧
    (∀ (parse : String → Except ParserError Json) (iP : String) (iT : IndexTree)
       (fs : StageFs) (root : String) (table : List (String × TomlValue)),
      (∀ kv ∈ table, local_dependency_of parse iP iT kv = none) →
      download_dependencies parse iP iT fs
          (.ok (some [("dependencies", TomlValue.table table)])) root =
        some (.ok [])) := by
  refine ⟨get_local_dependencies_eq, ?_, ?_, ?_⟩
  · intro parse iP iT k kt hv
    unfold local_dependency_of
    cases h2 : (toml_get kt "path").bind TomlValue.as_str <;>
      simp [TomlValue.as_table, h2, hv]
  · intro parse iP iT fs root table hbound hdl hex hdir hcf hpe
    constructor
    · rw [download_dependencies_table]
      apply handle_local_dependencies_ok
      rw [List.forall₂_map_right_iff, List.forall₂_same]
      intro d hd
      exact stage_one_ok fs root d (hbound d hd) hdl hex hdir hcf hpe
    · exact downloads_of_staged root _
  · intro parse iP iT fs root table hnone
    rw [download_dependencies_table]
    rw [List.filterMap_eq_nil_iff.mpr hnone]
    rfl

/-- Helper: resolving crate `a` from the demo index. -/
theorem demo_resolve_a :
    Crate.from_cargo_index_path demo_parse "a" "idx" demo_index =
      .ok { name := "a", versions := ["1.0"] } := by
  show index_path_search demo_parse "a" "idx"
      [.file "a" (.ok [.ok "lineA"]), .file "b" (.ok [.ok "lineB"])] = _
  rw [index_path_search.eq_def]
  have hs : skip_entry "idx" (IndexTree.file "a" (Except.ok [Except.ok "lineA"])) = false := by
    decide
  simp [hs]
  rfl

/-- Helper: resolving crate `b` from the demo index. -/
theorem demo_resolve_b :
    Crate.from_cargo_index_path demo_parse "b" "idx" demo_index =
      .ok { name := "b", versions := ["1.0"] } := by
  show index_path_search demo_parse "b" "idx"
      [.file "a" (.ok [.ok "lineA"]), .file "b" (.ok [.ok "lineB"])] = _
  rw [index_path_search.eq_def]
  have hsa : skip_entry "idx" (IndexTree.file "a" (Except.ok [Except.ok "lineA"])) = false := by
    decide
  simp [hsa]
  rw [index_path_search.eq_def]
  have hsb : skip_entry "idx" (IndexTree.file "b" (Except.ok [Except.ok "lineB"])) = false := by
    decide
  simp [hsb]
  rfl

/-- Helper: the success case of `local_dependency_of`, characterized by
the outcomes of its four lookups: a dependency whose value is a table
with both a `path` and a `version` key, whose crate resolves from the
index, and whose version requirement prefix-matches, is kept with the
matched version's position and the declared path. -/
theorem local_dependency_of_ok (parse : String → Except ParserError Json)
    (indexPath : String) (indexTree : IndexTree) (kv : String × TomlValue)
    (kt : List (String × TomlValue)) (path version : String) (c : Crate) (vi : Nat)
    (h1 : kv.2.as_table = some kt)
    (h2 : (toml_get kt "path").bind TomlValue.as_str = some path)
    (h3 : (toml_get kt "version").bind TomlValue.as_str = some version)
    (h4 : Crate.from_cargo_index_path parse kv.1 indexPath indexTree = .ok c)
    (h5 : c.version_starts_with version = some vi) :
    local_dependency_of parse indexPath indexTree kv = some (c, vi, path) := by
  simp only [local_dependency_of, h1, h2, h3, h4, h5]

/-- Helper: the parent's dependency on `a` is kept by the stager's
filter. -/
theorem demo_local_dep_a : local_dependency_of demo_parse "idx" demo_index
    ("a", .table [("path", .str "libs/a"), ("version", .str "1")]) =
    some ({ name := "a", versions := ["1.0"] }, 0, "libs/a") :=
  local_dependency_of_ok demo_parse "idx" demo_index _ _ _ _ _ _
    rfl rfl rfl demo_resolve_a (by decide)

/-- Helper: crate `a`'s dependency on `b` is kept by the stager's
filter. -/
theorem demo_local_dep_b : local_dependency_of demo_parse "idx" demo_index
    ("b", .table [("path", .str "libs/b"), ("version", .str "1")]) =
    some ({ name := "b", versions := ["1.0"] }, 0, "libs/b") :=
  local_dependency_of_ok demo_parse "idx" demo_index _ _ _ _ _ _
    rfl rfl rfl demo_resolve_b (by decide)

/-- Helper: the parent table stages exactly crate `a`. -/
theorem demo_filter_parent :
    demo_parent_deps.filterMap (local_dependency_of demo_parse "idx" demo_index) =
      [({ name := "a", versions := ["1.0"] }, 0, "libs/a")] := by
  show (("a", TomlValue.table [("path", .str "libs/a"), ("version", .str "1")]) ::
      ([] : List (String × TomlValue))).filterMap
      (local_dependency_of demo_parse "idx" demo_index) = _
  rw [List.filterMap_cons, demo_local_dep_a]
  rfl

/-- Helper: crate `a`'s own table stages exactly crate `b`. -/
theorem demo_filter_a :
    demo_a_deps.filterMap (local_dependency_of demo_parse "idx" demo_index) =
      [({ name := "b", versions := ["1.0"] }, 0, "libs/b")] := by
  show (("b", TomlValue.table [("path", .str "libs/b"), ("version", .str "1")]) ::
      ([] : List (String × TomlValue))).filterMap
      (local_dependency_of demo_parse "idx" demo_index) = _
  rw [List.filterMap_cons, demo_local_dep_b]
  rfl

/-- **C2 counterexample**: in the demo scenario the parent stages `a`
(a path-and-version dependency), and `a`'s own manifest declares the
path-and-version dependency `b`, which resolves from the index and
prefix-matches — so the spec's recursive stager fetches both `a` and
`b` — yet the code's whole staging trace contains no action for `b`:
`handle_local_dependencies` never recurses into a staged dependency's
own local dependencies. -/
theorem stager_does_not_recurse :
    download_dependencies demo_parse "idx" demo_index demo_fs
        (.ok (some [("dependencies", TomlValue.table demo_parent_deps)])) "root" =
      some (.ok
        (staged_actions "root" ({ name := "a", versions := ["1.0"] }, 0, "libs/a"))) ∧
    downloads_of
        (staged_actions "root" ({ name := "a", versions := ["1.0"] }, 0, "libs/a")) =
      [("a", "1.0")] ∧
    spec_stager_downloads demo_parse "idx" demo_index demo_manifest_of 2
        demo_parent_deps = [("a", "1.0"), ("b", "1.0")] ∧
    local_dependency_of demo_parse "idx" demo_index
        ("b", .table [("path", .str "libs/b"), ("version", .str "1")]) =
      some ({ name := "b", versions := ["1.0"] }, 0, "libs/b") ∧
    ("b", "1.0") ∉ downloads_of
        (staged_actions "root" ({ name := "a", versions := ["1.0"] }, 0, "libs/a")) := by
  refine ⟨?_, by decide, ?_, ?_, by decide⟩
  · rw [download_dependencies_table, demo_filter_parent]
    simp [handle_local_dependencies, stage_one, demo_fs, staged_actions]
  · have hspec1 : spec_stager_downloads demo_parse "idx" demo_index demo_manifest_of 1
        demo_a_deps = [("b", "1.0")] := by
      rw [spec_stager_downloads.eq_def]
      simp [get_local_dependencies_eq, demo_filter_a, demo_manifest_of]
    rw [spec_stager_downloads.eq_def]
    simp [get_local_dependencies_eq, demo_filter_parent, demo_manifest_of, hspec1]
  · exact demo_local_dep_b

/-- Witness for the amended C2 theorem on the demo scenario. -/
theorem stager_spec_witness :
    download_dependencies demo_parse "idx" demo_index demo_fs
        (.ok (some [("dependencies", TomlValue.table demo_parent_deps)])) "root" =
      some (.ok ((demo_parent_deps.filterMap
          (local_dependency_of demo_parse "idx" demo_index)).map
          (staged_actions "root")).flatten) ∧
    downloads_of ((demo_parent_deps.filterMap
          (local_dependency_of demo_parse "idx" demo_index)).map
          (staged_actions "root")).flatten =
      (demo_parent_deps.filterMap
          (local_dependency_of demo_parse "idx" demo_index)).map
        (fun dep => (dep.1.name, dep.1.versions.getD dep.2.1 "")) :=
  stager_spec.2.2.1 demo_parse "idx" demo_index demo_fs "root" demo_parent_deps
    (by
      rw [demo_filter_parent]
      intro dep hdep
      rw [List.mem_singleton] at hdep
      subst hdep
      decide)
    (fun _ => rfl) (fun _ => rfl) (fun _ => rfl) (fun _ => rfl) (fun _ => rfl)

/-! ## Theorems: build/rustdoc status (C6) -/

/-- **C6**: the status block is a pure function of the three filesystem
facts (no process exit code is among its inputs): `build_status` is `1`
exactly when both the build log and the output directory exist, `-1`
exactly when the log exists but the output directory does not, and `0`
exactly when the log is absent — including the case of an output
directory present without a log; `rustdoc_status` is `1` exactly when
the primary target's output exists. -/
theorem build_and_rustdoc_status_spec :
    ∀ (log_exists doc_dir_exists target_exists : Bool),
      ((build_and_rustdoc_status log_exists doc_dir_exists target_exists).1 = 1 ↔
        (log_exists = true ∧ doc_dir_exists = true)) ∧
      ((build_and_rustdoc_status log_exists doc_dir_exists target_exists).1 = -1 ↔
        (log_exists = true ∧ doc_dir_exists = false)) ∧
      ((build_and_rustdoc_status log_exists doc_dir_exists target_exists).1 = 0 ↔
        log_exists = false) ∧
      ((build_and_rustdoc_status log_exists doc_dir_exists target_exists).2 = 1 ↔
        target_exists = true) ∧
      ((build_and_rustdoc_status log_exists doc_dir_exists target_exists).2 = 0 ↔
        target_exists = false) := by
  decide

/-! ## Theorems: build-outcome classification (C3) -/

/-- **C3 counterexample**: with every earlier step succeeding and the
external command exiting non-zero, `build_crate_doc` returns the same
payload-free `FailedToBuildCrate` value for two different captured
logs; the returned error therefore cannot carry the captured log text,
contrary to the claim. -/
theorem build_crate_doc_log_not_carried :
    build_crate_doc (.ok ()) (.ok "dl") (.ok "ex") (.ok ()) false "first log" =
      .error DocBuilderError.FailedToBuildCrate ∧
    build_crate_doc (.ok ()) (.ok "dl") (.ok "ex") (.ok ()) false "second log" =
      .error DocBuilderError.FailedToBuildCrate ∧
    "first log" ≠ "second log" :=
  ⟨rfl, rfl, by decide⟩

/-- **C3 amended**: given the preceding steps succeed, `build_crate_doc`
returns success exactly when the external documentation-build command
exits with status zero, and for every non-zero exit returns the
payload-free `FailedToBuildCrate` error — the captured combined log is
only written to the informational log, not carried in the error. -/
theorem build_crate_doc_classification
    (download extract : String) (exit_zero : Bool) (log : String) :
    (build_crate_doc (.ok ()) (.ok download) (.ok extract) (.ok ()) exit_zero log =
        .ok () ↔ exit_zero = true) ∧
    (exit_zero = false →
      build_crate_doc (.ok ()) (.ok download) (.ok extract) (.ok ()) exit_zero log =
        .error DocBuilderError.FailedToBuildCrate) := by
  cases exit_zero <;> simp [build_crate_doc, build_doc, command_result]

/-- Witness for the amended C3 theorem on a concrete failing run. -/
theorem build_crate_doc_classification_witness :
    build_crate_doc (.ok ()) (.ok "d") (.ok "e") (.ok ()) false "error: expected type" =
      .error DocBuilderError.FailedToBuildCrate :=
  (build_crate_doc_classification "d" "e" false "error: expected type").2 rfl

/-! ## Theorems: author parsing (C7) -/

/-- **C7**: `"Jane Doe <jane@example.com>"` parses to name `"Jane Doe"`
and email `"jane@example.com"`; the bracketless `"Jane Doe"` parses to
name `"Jane Doe"` with empty email and is not skipped; and every author
string the pattern rejects is skipped by the author step with no state
change and no error (for instance a string beginning with `<`). -/
theorem parse_author_spec :
    parse_author "Jane Doe <jane@example.com>" = some ("Jane Doe", "jane@example.com") ∧
    parse_author "Jane Doe" = some ("Jane Doe", "") ∧
    (∀ (slugify : String → String) (db : Db) (release_id : Nat) (author : String),
      parse_author author = none →
      add_author slugify db release_id author = db) ∧
    parse_author "<jane@example.com>" = none := by
  refine ⟨by decide, by decide, ?_, by decide⟩
  intro slugify db release_id author h
  simp [add_author, h]

/-- Witness for the C7 theorem's skip clause on a concrete store and a
concrete rejected author string. -/
theorem parse_author_spec_witness :
    add_author (fun s => s)
      { crates := [], releases := [], authors := [], keywords := [], owners := []
        author_rels := [], keyword_rels := [], owner_rels := []
        crates_next_id := 0, releases_next_id := 0, authors_next_id := 0
        keywords_next_id := 0, owners_next_id := 0 } 7 "<no-name>" =
      { crates := [], releases := [], authors := [], keywords := [], owners := []
        author_rels := [], keyword_rels := [], owner_rels := []
        crates_next_id := 0, releases_next_id := 0, authors_next_id := 0
        keywords_next_id := 0, owners_next_id := 0 } :=
  parse_author_spec.2.2.1 (fun s => s) _ 7 "<no-name>" (by decide)

/-! ## Theorems: ingestion idempotence (C1) — helper lemmas -/

/-- Helper: a map that fixes every element of a list is the identity on
it. -/
theorem map_eq_self_of {α : Type} {l : List α} {f : α → α}
    (h : ∀ x ∈ l, f x = x) : l.map f = l := by
  induction l with
  | nil => rfl
  | cons a t ih =>
      simp only [List.map_cons, h a (by simp)]
      rw [ih (fun x hx => h x (by simp [hx]))]

/-- Helper: with pairwise-distinct ids, two members with the same id
are the same row. -/
theorem eq_of_pairwise_ids {l : List CrateRow}
    (h : l.Pairwise (fun a b => a.id ≠ b.id)) :
    ∀ {x r : CrateRow}, x ∈ l → r ∈ l → x.id = r.id → x = r := by
  induction l with
  | nil => intro x r hx; cases hx
  | cons y t ih =>
      rw [List.pairwise_cons] at h
      intro x r hx hr hid
      cases hx with
      | head =>
          cases hr with
          | head => rfl
          | tail _ hr => exact absurd hid (h.1 r hr)
      | tail _ hx =>
          cases hr with
          | head => exact absurd hid.symm (h.1 x hx)
          | tail _ hr => exact ih h.2 hx hr hid

/-- Helper: with pairwise-distinct names, the rows named `n` are
exactly one when one such member exists. -/
theorem filter_name_length_one {l : List CrateRow} (n : String)
    (h : l.Pairwise (fun a b => a.name ≠ b.name)) :
    ∀ {r : CrateRow}, r ∈ l → r.name = n →
      (l.filter (fun x => x.name = n)).length = 1 := by
  induction l with
  | nil => intro r hr; cases hr
  | cons y t ih =>
      rw [List.pairwise_cons] at h
      intro r hr hn
      cases hr with
      | head =>
          have ht : t.filter (fun x => x.name = n) = [] := by
            rw [List.filter_eq_nil_iff]
            intro x hx
            simp only [decide_eq_true_eq]
            intro hxn
            exact h.1 x hx (hn.trans hxn.symm)
          simp [List.filter_cons, hn, ht]
      | tail _ hr =>
          have hy : ¬(y.name = n) := fun hyn => h.1 r hr (hyn.trans hn.symm)
          simp only [List.filter_cons]
          rw [if_neg (by simpa using hy)]
          exact ih h.2 hr hn

/-- Helper: a successful prefix lookup survives appending. -/
theorem find?_append_some {α : Type} {l l2 : List α} {p : α → Bool} {x : α}
    (h : l.find? p = some x) : (l ++ l2).find? p = some x := by
  rw [List.find?_append, h]
  rfl

/-- Helper: membership survives a discarded relationship insert. -/
theorem mem_insert_rel_ignore {rels : List (Nat × Nat)} {p q : Nat × Nat}
    (h : p ∈ rels) : p ∈ insert_rel_ignore rels q := by
  unfold insert_rel_ignore insert_rel
  by_cases hq : q ∈ rels <;> simp [hq, h]

/-- Helper: the inserted pair is present after a discarded insert. -/
theorem self_mem_insert_rel_ignore (rels : List (Nat × Nat)) (p : Nat × Nat) :
    p ∈ insert_rel_ignore rels p := by
  unfold insert_rel_ignore insert_rel
  by_cases hp : p ∈ rels <;> simp [hp]

/-- Helper: inserting a pair already present is discarded as a failure
and leaves the table unchanged. -/
theorem insert_rel_ignore_of_mem {rels : List (Nat × Nat)} {p : Nat × Nat}
    (h : p ∈ rels) : insert_rel_ignore rels p = rels := by
  unfold insert_rel_ignore insert_rel
  simp [h]

/-- Helper: a discarded insert preserves the no-duplicates property. -/
theorem insert_rel_ignore_nodup {rels : List (Nat × Nat)} (p : Nat × Nat)
    (h : rels.Nodup) : (insert_rel_ignore rels p).Nodup := by
  unfold insert_rel_ignore insert_rel
  by_cases hp : p ∈ rels
  · simp only [hp, if_true]
    exact h
  · simp only [hp, if_false]
    refine List.Nodup.append h (List.nodup_singleton p) ?_
    intro a ha hb
    rw [List.mem_singleton] at hb
    exact hp (hb ▸ ha)

/-- Frame facts of one keyword step: only `keywords` (append-only),
`keywords_next_id` and `keyword_rels` (one discarded insert) change. -/
theorem add_keyword_frame (s : String → String) (db : Db) (rid : Nat) (kw : String) :
    (add_keyword s db rid kw).crates = db.crates ∧
    (add_keyword s db rid kw).releases = db.releases ∧
    (add_keyword s db rid kw).authors = db.authors ∧
    (add_keyword s db rid kw).owners = db.owners ∧
    (add_keyword s db rid kw).author_rels = db.author_rels ∧
    (add_keyword s db rid kw).owner_rels = db.owner_rels ∧
    (add_keyword s db rid kw).crates_next_id = db.crates_next_id ∧
    (∃ l, (add_keyword s db rid kw).keywords = db.keywords ++ l) ∧
    (∃ q, (add_keyword s db rid kw).keyword_rels = insert_rel_ignore db.keyword_rels q) := by
  simp only [add_keyword]
  cases h : db.keywords.find? (fun x => x.slug = s kw) with
  | some k =>
      exact ⟨rfl, rfl, rfl, rfl, rfl, rfl, rfl, ⟨[], by simp⟩, ⟨_, rfl⟩⟩
  | none =>
      exact ⟨rfl, rfl, rfl, rfl, rfl, rfl, rfl, ⟨_, rfl⟩, ⟨_, rfl⟩⟩

/-- After one keyword step, that keyword is done. -/
theorem kwDone_of_add (s : String → String) (db : Db) (rid : Nat) (kw : String) :
    kwDone s (add_keyword s db rid kw) rid kw := by
  unfold kwDone
  simp only [add_keyword]
  cases h : db.keywords.find? (fun x => x.slug = s kw) with
  | some k =>
      exact ⟨k, h, self_mem_insert_rel_ignore _ _⟩
  | none =>
      refine ⟨{ id := db.keywords_next_id, name := kw, slug := s kw }, ?_,
        self_mem_insert_rel_ignore _ _⟩
      rw [List.find?_append, h]
      simp

/-- Doneness is monotone in the keyword table and relationships. -/
theorem kwDone_mono {s : String → String} {db db' : Db} {rid : Nat} {kw : String}
    (h : kwDone s db rid kw)
    (hk : ∃ l, db'.keywords = db.keywords ++ l)
    (hr : ∀ p ∈ db.keyword_rels, p ∈ db'.keyword_rels) :
    kwDone s db' rid kw := by
  obtain ⟨k, hfind, hmem⟩ := h
  obtain ⟨l, hl⟩ := hk
  exact ⟨k, by rw [hl]; exact find?_append_some hfind, hr _ hmem⟩

/-- A done keyword's step changes nothing. -/
theorem add_keyword_of_done {s : String → String} {db : Db} {rid : Nat}
    {kw : String} (h : kwDone s db rid kw) :
    add_keyword s db rid kw = db := by
  obtain ⟨k, hfind, hmem⟩ := h
  simp only [add_keyword]
  rw [hfind]
  show { db with keyword_rels := insert_rel_ignore db.keyword_rels (rid, k.id) } = db
  rw [insert_rel_ignore_of_mem hmem]

/-- Frame facts of the whole keyword loop. -/
theorem keywords_phase_frame (s : String → String) (rid : Nat) :
    ∀ (kws : List String) (db : Db),
      (keywords_phase s db rid kws).crates = db.crates ∧
      (keywords_phase s db rid kws).releases = db.releases ∧
      (keywords_phase s db rid kws).authors = db.authors ∧
      (keywords_phase s db rid kws).owners = db.owners ∧
      (keywords_phase s db rid kws).author_rels = db.author_rels ∧
      (keywords_phase s db rid kws).owner_rels = db.owner_rels ∧
      (keywords_phase s db rid kws).crates_next_id = db.crates_next_id ∧
      (∃ l, (keywords_phase s db rid kws).keywords = db.keywords ++ l) ∧
      (∀ p ∈ db.keyword_rels, p ∈ (keywords_phase s db rid kws).keyword_rels) := by
  intro kws
  induction kws with
  | nil =>
      intro db
      exact ⟨rfl, rfl, rfl, rfl, rfl, rfl, rfl, ⟨[], by simp [keywords_phase]⟩,
        fun p hp => hp⟩
  | cons kw rest ih =>
      intro db
      have hstep := add_keyword_frame s db rid kw
      have hrec := ih (add_keyword s db rid kw)
      obtain ⟨l1, hl1⟩ := hstep.2.2.2.2.2.2.2.1
      obtain ⟨q1, hq1⟩ := hstep.2.2.2.2.2.2.2.2
      obtain ⟨l2, hl2⟩ := hrec.2.2.2.2.2.2.2.1
      refine ⟨?_, ?_, ?_, ?_, ?_, ?_, ?_, ?_, ?_⟩
      · exact hrec.1.trans hstep.1
      · exact hrec.2.1.trans hstep.2.1
      · exact hrec.2.2.1.trans hstep.2.2.1
      · exact hrec.2.2.2.1.trans hstep.2.2.2.1
      · exact hrec.2.2.2.2.1.trans hstep.2.2.2.2.1
      · exact hrec.2.2.2.2.2.1.trans hstep.2.2.2.2.2.1
      · exact hrec.2.2.2.2.2.2.1.trans hstep.2.2.2.2.2.2.1
      · exact ⟨l1 ++ l2, by
          show (keywords_phase s (add_keyword s db rid kw) rid rest).keywords = _
          rw [hl2, hl1, List.append_assoc]⟩
      · intro p hp
        have hp1 : p ∈ (add_keyword s db rid kw).keyword_rels := by
          rw [hq1]; exact mem_insert_rel_ignore hp
        exact hrec.2.2.2.2.2.2.2.2 p hp1

/-- After the keyword loop, every keyword of the list is done. -/
theorem keywords_phase_post (s : String → String) (rid : Nat) :
    ∀ (kws : List String) (db : Db) (kw : String), kw ∈ kws →
      kwDone s (keywords_phase s db rid kws) rid kw := by
  intro kws
  induction kws with
  | nil => intro db kw h; cases h
  | cons a rest ih =>
      intro db kw hkw
      cases List.mem_cons.mp hkw with
      | inl he =>
          subst he
          have hdone := kwDone_of_add s db rid kw
          have hfr := keywords_phase_frame s rid rest (add_keyword s db rid kw)
          exact kwDone_mono hdone hfr.2.2.2.2.2.2.2.1 hfr.2.2.2.2.2.2.2.2
      | inr ht =>
          exact ih (add_keyword s db rid a) kw ht

/-- When every keyword of the list is already done, the loop is the
identity. -/
theorem keywords_phase_noop (s : String → String) (rid : Nat) :
    ∀ (kws : List String) (db : Db),
      (∀ kw ∈ kws, kwDone s db rid kw) →
      keywords_phase s db rid kws = db := by
  intro kws
  induction kws with
  | nil => intro db _; rfl
  | cons a rest ih =>
      intro db h
      show keywords_phase s (add_keyword s db rid a) rid rest = db
      rw [add_keyword_of_done (h a (by simp))]
      exact ih db (fun kw hkw => h kw (by simp [hkw]))

/-- One keyword step preserves the store invariants. -/
theorem add_keyword_inv {db : Db} (h : DbInv db) (s : String → String)
    (rid : Nat) (kw : String) : DbInv (add_keyword s db rid kw) := by
  have hf := add_keyword_frame s db rid kw
  obtain ⟨q, hq⟩ := hf.2.2.2.2.2.2.2.2
  refine ⟨?_, ?_, ?_, ?_, ?_, ?_, ?_⟩
  · rw [hf.1]; exact h.crate_names
  · rw [hf.1]; exact h.crate_ids
  · rw [hf.1, hf.2.2.2.2.2.2.1]; exact h.crate_ids_lt
  · rw [hf.2.1]; exact h.release_keys
  · rw [hq]; exact insert_rel_ignore_nodup q h.kw_rels_nodup
  · rw [hf.2.2.2.2.1]; exact h.au_rels_nodup
  · rw [hf.2.2.2.2.2.1]; exact h.ow_rels_nodup

/-- The keyword loop preserves the store invariants. -/
theorem keywords_phase_inv (s : String → String) (rid : Nat) :
    ∀ (kws : List String) {db : Db}, DbInv db →
      DbInv (keywords_phase s db rid kws) := by
  intro kws
  induction kws with
  | nil => intro db h; exact h
  | cons a rest ih =>
      intro db h
      exact ih (add_keyword_inv h s rid a)

/-- Frame facts of one author step. -/
theorem add_author_frame (s : String → String) (db : Db) (rid : Nat) (author : String) :
    (add_author s db rid author).crates = db.crates ∧
    (add_author s db rid author).releases = db.releases ∧
    (add_author s db rid author).keywords = db.keywords ∧
    (add_author s db rid author).owners = db.owners ∧
    (add_author s db rid author).keyword_rels = db.keyword_rels ∧
    (add_author s db rid author).owner_rels = db.owner_rels ∧
    (add_author s db rid author).crates_next_id = db.crates_next_id ∧
    (∃ l, (add_author s db rid author).authors = db.authors ++ l) ∧
    ((add_author s db rid author).author_rels = db.author_rels ∨
      ∃ q, (add_author s db rid author).author_rels =
        insert_rel_ignore db.author_rels q) := by
  cases hpa : parse_author author with
  | none =>
      have hred : add_author s db rid author = db := by simp only [add_author, hpa]
      rw [hred]
      exact ⟨rfl, rfl, rfl, rfl, rfl, rfl, rfl, ⟨[], by simp⟩, Or.inl rfl⟩
  | some pair =>
      obtain ⟨nm, em⟩ := pair
      simp only [add_author, hpa]
      cases h : db.authors.find? (fun x => x.slug = s nm) with
      | some a =>
          exact ⟨rfl, rfl, rfl, rfl, rfl, rfl, rfl, ⟨[], by simp⟩, Or.inr ⟨_, rfl⟩⟩
      | none =>
          exact ⟨rfl, rfl, rfl, rfl, rfl, rfl, rfl, ⟨_, rfl⟩, Or.inr ⟨_, rfl⟩⟩

/-- After one author step, that author string is done. -/
theorem auDone_of_add (s : String → String) (db : Db) (rid : Nat) (author : String) :
    auDone s (add_author s db rid author) rid author := by
  unfold auDone
  cases hpa : parse_author author with
  | none => trivial
  | some pair =>
      obtain ⟨nm, em⟩ := pair
      simp only [add_author, hpa]
      cases h : db.authors.find? (fun x => x.slug = s nm) with
      | some a =>
          exact ⟨a, h, self_mem_insert_rel_ignore _ _⟩
      | none =>
          refine ⟨{ id := db.authors_next_id, name := nm, email := em, slug := s nm },
            ?_, self_mem_insert_rel_ignore _ _⟩
          rw [List.find?_append, h]
          simp

/-- Doneness is monotone in the author table and relationships. -/
theorem auDone_mono {s : String → String} {db db' : Db} {rid : Nat} {author : String}
    (h : auDone s db rid author)
    (ha : ∃ l, db'.authors = db.authors ++ l)
    (hr : ∀ p ∈ db.author_rels, p ∈ db'.author_rels) :
    auDone s db' rid author := by
  unfold auDone at h ⊢
  cases hpa : parse_author author with
  | none => trivial
  | some pair =>
      obtain ⟨nm, em⟩ := pair
      rw [hpa] at h
      obtain ⟨a, hfind, hmem⟩ := h
      obtain ⟨l, hl⟩ := ha
      exact ⟨a, by rw [hl]; exact find?_append_some hfind, hr _ hmem⟩

/-- A done author string's step changes nothing. -/
theorem add_author_of_done {s : String → String} {db : Db} {rid : Nat}
    {author : String} (h : auDone s db rid author) :
    add_author s db rid author = db := by
  unfold auDone at h
  cases hpa : parse_author author with
  | none => simp only [add_author, hpa]
  | some pair =>
      obtain ⟨nm, em⟩ := pair
      rw [hpa] at h
      obtain ⟨a, hfind, hmem⟩ := h
      simp only [add_author, hpa]
      rw [hfind]
      show { db with author_rels := insert_rel_ignore db.author_rels (rid, a.id) } = db
      rw [insert_rel_ignore_of_mem hmem]

/-- Frame facts of the whole author loop. -/
theorem authors_phase_frame (s : String → String) (rid : Nat) :
    ∀ (auths : List String) (db : Db),
      (authors_phase s db rid auths).crates = db.crates ∧
      (authors_phase s db rid auths).releases = db.releases ∧
      (authors_phase s db rid auths).keywords = db.keywords ∧
      (authors_phase s db rid auths).owners = db.owners ∧
      (authors_phase s db rid auths).keyword_rels = db.keyword_rels ∧
      (authors_phase s db rid auths).owner_rels = db.owner_rels ∧
      (authors_phase s db rid auths).crates_next_id = db.crates_next_id ∧
      (∃ l, (authors_phase s db rid auths).authors = db.authors ++ l) ∧
      (∀ p ∈ db.author_rels, p ∈ (authors_phase s db rid auths).author_rels) := by
  intro auths
  induction auths with
  | nil =>
      intro db
      exact ⟨rfl, rfl, rfl, rfl, rfl, rfl, rfl, ⟨[], by simp [authors_phase]⟩,
        fun p hp => hp⟩
  | cons a rest ih =>
      intro db
      have hstep := add_author_frame s db rid a
      have hrec := ih (add_author s db rid a)
      obtain ⟨l1, hl1⟩ := hstep.2.2.2.2.2.2.2.1
      obtain ⟨l2, hl2⟩ := hrec.2.2.2.2.2.2.2.1
      refine ⟨hrec.1.trans hstep.1, hrec.2.1.trans hstep.2.1,
        hrec.2.2.1.trans hstep.2.2.1, hrec.2.2.2.1.trans hstep.2.2.2.1,
        hrec.2.2.2.2.1.trans hstep.2.2.2.2.1,
        hrec.2.2.2.2.2.1.trans hstep.2.2.2.2.2.1,
        hrec.2.2.2.2.2.2.1.trans hstep.2.2.2.2.2.2.1, ?_, ?_⟩
      · exact ⟨l1 ++ l2, by
          show (authors_phase s (add_author s db rid a) rid rest).authors = _
          rw [hl2, hl1, List.append_assoc]⟩
      · intro p hp
        have hp1 : p ∈ (add_author s db rid a).author_rels := by
          cases hstep.2.2.2.2.2.2.2.2 with
          | inl he => rw [he]; exact hp
          | inr hq => obtain ⟨q, hq⟩ := hq; rw [hq]; exact mem_insert_rel_ignore hp
        exact hrec.2.2.2.2.2.2.2.2 p hp1

/-- After the author loop, every author string of the list is done. -/
theorem authors_phase_post (s : String → String) (rid : Nat) :
    ∀ (auths : List String) (db : Db) (a : String), a ∈ auths →
      auDone s (authors_phase s db rid auths) rid a := by
  intro auths
  induction auths with
  | nil => intro db a h; cases h
  | cons x rest ih =>
      intro db a ha
      cases List.mem_cons.mp ha with
      | inl he =>
          subst he
          have hdone := auDone_of_add s db rid a
          have hfr := authors_phase_frame s rid rest (add_author s db rid a)
          exact auDone_mono hdone hfr.2.2.2.2.2.2.2.1 hfr.2.2.2.2.2.2.2.2
      | inr ht =>
          exact ih (add_author s db rid x) a ht

/-- When every author string of the list is already done, the loop is
the identity. -/
theorem authors_phase_noop (s : String → String) (rid : Nat) :
    ∀ (auths : List String) (db : Db),
      (∀ a ∈ auths, auDone s db rid a) →
      authors_phase s db rid auths = db := by
  intro auths
  induction auths with
  | nil => intro db _; rfl
  | cons x rest ih =>
      intro db h
      show authors_phase s (add_author s db rid x) rid rest = db
      rw [add_author_of_done (h x (by simp))]
      exact ih db (fun a ha => h a (by simp [ha]))

/-- One author step preserves the store invariants. -/
theorem add_author_inv {db : Db} (h : DbInv db) (s : String → String)
    (rid : Nat) (author : String) : DbInv (add_author s db rid author) := by
  have hf := add_author_frame s db rid author
  refine ⟨?_, ?_, ?_, ?_, ?_, ?_, ?_⟩
  · rw [hf.1]; exact h.crate_names
  · rw [hf.1]; exact h.crate_ids
  · rw [hf.1, hf.2.2.2.2.2.2.1]; exact h.crate_ids_lt
  · rw [hf.2.1]; exact h.release_keys
  · rw [hf.2.2.2.2.1]; exact h.kw_rels_nodup
  · cases hf.2.2.2.2.2.2.2.2 with
    | inl he => rw [he]; exact h.au_rels_nodup
    | inr hq =>
        obtain ⟨q, hq⟩ := hq
        rw [hq]
        exact insert_rel_ignore_nodup q h.au_rels_nodup
  · rw [hf.2.2.2.2.2.1]; exact h.ow_rels_nodup

/-- The author loop preserves the store invariants. -/
theorem authors_phase_inv (s : String → String) (rid : Nat) :
    ∀ (auths : List String) {db : Db}, DbInv db →
      DbInv (authors_phase s db rid auths) := by
  intro auths
  induction auths with
  | nil => intro db h; exact h
  | cons a rest ih =>
      intro db h
      exact ih (add_author_inv h s rid a)

/-- Frame facts of one successful owner step: only `owners`
(append-only), `owners_next_id` and `owner_rels` (one discarded
insert) change. -/
theorem add_owner_frame {s : String → String} {db db2 : Db} {cid : Nat}
    {o : OwnerRec} (h : add_owner s db cid o = .ok db2) :
    db2.crates = db.crates ∧
    db2.releases = db.releases ∧
    db2.keywords = db.keywords ∧
    db2.authors = db.authors ∧
    db2.keyword_rels = db.keyword_rels ∧
    db2.author_rels = db.author_rels ∧
    db2.crates_next_id = db.crates_next_id ∧
    (∃ l, db2.owners = db.owners ++ l) ∧
    (db2.owner_rels = db.owner_rels ∨
      ∃ q, db2.owner_rels = insert_rel_ignore db.owner_rels q) := by
  by_cases hlog : o.login.getD "" = ""
  · have hred : add_owner s db cid o = .ok db := by
      simp only [add_owner]
      rw [if_pos hlog]
    injection hred.symm.trans h with hdb
    subst hdb
    exact ⟨rfl, rfl, rfl, rfl, rfl, rfl, rfl, ⟨[], by simp⟩, Or.inl rfl⟩
  · simp only [add_owner] at h
    rw [if_neg hlog] at h
    cases hf : db.owners.find? (fun w => w.login = o.login.getD "") with
    | some w =>
        rw [hf] at h
        injection h with hdb
        subst hdb
        exact ⟨rfl, rfl, rfl, rfl, rfl, rfl, rfl, ⟨[], by simp⟩, Or.inr ⟨_, rfl⟩⟩
    | none =>
        rw [hf] at h
        by_cases hs : db.owners.any (fun w => w.slug = s (o.name.getD "")) = true
        · rw [if_pos hs] at h
          simp at h
        · rw [if_neg hs] at h
          injection h with hdb
          subst hdb
          exact ⟨rfl, rfl, rfl, rfl, rfl, rfl, rfl, ⟨_, rfl⟩, Or.inr ⟨_, rfl⟩⟩

/-- After one successful owner step, that owner record is done. -/
theorem owDone_of_add {s : String → String} {db db2 : Db} {cid : Nat}
    {o : OwnerRec} (h : add_owner s db cid o = .ok db2) :
    owDone s db2 cid o := by
  unfold owDone
  by_cases hlog : o.login.getD "" = ""
  · rw [if_pos hlog]
    trivial
  · rw [if_neg hlog]
    simp only [add_owner] at h
    rw [if_neg hlog] at h
    cases hf : db.owners.find? (fun w => w.login = o.login.getD "") with
    | some w =>
        rw [hf] at h
        injection h with hdb
        subst hdb
        exact ⟨w, hf, self_mem_insert_rel_ignore _ _⟩
    | none =>
        rw [hf] at h
        by_cases hs : db.owners.any (fun w => w.slug = s (o.name.getD "")) = true
        · rw [if_pos hs] at h
          simp at h
        · rw [if_neg hs] at h
          injection h with hdb
          subst hdb
          refine ⟨⟨db.owners_next_id, o.login.getD "", s (o.name.getD ""),
            o.avatar.getD "", o.name.getD "", o.email.getD ""⟩, ?_,
            self_mem_insert_rel_ignore _ _⟩
          show (db.owners ++ ([⟨db.owners_next_id, o.login.getD "",
            s (o.name.getD ""), o.avatar.getD "", o.name.getD "",
            o.email.getD ""⟩] : List OwnerRow)).find?
              (fun x => x.login = o.login.getD "") = _
          rw [List.find?_append, hf]
          simp

/-- Doneness is monotone in the owner table and relationships. -/
theorem owDone_mono {s : String → String} {db db' : Db} {cid : Nat} {o : OwnerRec}
    (h : owDone s db cid o)
    (ho : ∃ l, db'.owners = db.owners ++ l)
    (hr : ∀ p ∈ db.owner_rels, p ∈ db'.owner_rels) :
    owDone s db' cid o := by
  unfold owDone at h ⊢
  by_cases hlog : o.login.getD "" = ""
  · rw [if_pos hlog]
    trivial
  · rw [if_neg hlog] at h ⊢
    obtain ⟨w, hfind, hmem⟩ := h
    obtain ⟨l, hl⟩ := ho
    exact ⟨w, by rw [hl]; exact find?_append_some hfind, hr _ hmem⟩

/-- A done owner record's step succeeds and changes nothing: the row is
found by login, and the relationship insert's duplicate failure is
discarded. -/
theorem add_owner_of_done {s : String → String} {db : Db} {cid : Nat}
    {o : OwnerRec} (h : owDone s db cid o) :
    add_owner s db cid o = .ok db := by
  unfold owDone at h
  by_cases hlog : o.login.getD "" = ""
  · simp only [add_owner]
    rw [if_pos hlog]
  · rw [if_neg hlog] at h
    obtain ⟨w, hfind, hmem⟩ := h
    simp only [add_owner]
    rw [if_neg hlog, hfind]
    show Except.ok
        { db with owner_rels := insert_rel_ignore db.owner_rels (cid, w.id) } =
      Except.ok db
    rw [insert_rel_ignore_of_mem hmem]

/-- Frame facts of a successful owner loop. -/
theorem owners_loop_frame (s : String → String) (cid : Nat) :
    ∀ (os : List OwnerRec) (db db2 : Db),
      owners_loop s cid db os = .ok db2 →
      db2.crates = db.crates ∧
      db2.releases = db.releases ∧
      db2.keywords = db.keywords ∧
      db2.authors = db.authors ∧
      db2.keyword_rels = db.keyword_rels ∧
      db2.author_rels = db.author_rels ∧
      db2.crates_next_id = db.crates_next_id ∧
      (∃ l, db2.owners = db.owners ++ l) ∧
      (∀ p ∈ db.owner_rels, p ∈ db2.owner_rels) := by
  intro os
  induction os with
  | nil =>
      intro db db2 h
      injection h with hdb
      subst hdb
      exact ⟨rfl, rfl, rfl, rfl, rfl, rfl, rfl, ⟨[], by simp⟩, fun p hp => hp⟩
  | cons o rest ih =>
      intro db db2 h
      simp only [owners_loop] at h
      cases ha : add_owner s db cid o with
      | error e =>
          rw [ha] at h
          simp at h
      | ok dbx =>
          rw [ha] at h
          have hstep := add_owner_frame ha
          have hrec := ih dbx db2 h
          obtain ⟨l1, hl1⟩ := hstep.2.2.2.2.2.2.2.1
          obtain ⟨l2, hl2⟩ := hrec.2.2.2.2.2.2.2.1
          refine ⟨hrec.1.trans hstep.1, hrec.2.1.trans hstep.2.1,
            hrec.2.2.1.trans hstep.2.2.1, hrec.2.2.2.1.trans hstep.2.2.2.1,
            hrec.2.2.2.2.1.trans hstep.2.2.2.2.1,
            hrec.2.2.2.2.2.1.trans hstep.2.2.2.2.2.1,
            hrec.2.2.2.2.2.2.1.trans hstep.2.2.2.2.2.2.1, ?_, ?_⟩
          · exact ⟨l1 ++ l2, by rw [hl2, hl1, List.append_assoc]⟩
          · intro p hp
            have hp1 : p ∈ dbx.owner_rels := by
              cases hstep.2.2.2.2.2.2.2.2 with
              | inl he => rw [he]; exact hp
              | inr hq =>
                  obtain ⟨q, hq⟩ := hq
                  rw [hq]
                  exact mem_insert_rel_ignore hp
            exact hrec.2.2.2.2.2.2.2.2 p hp1

/-- After a successful owner loop, every record of the list is done. -/
theorem owners_loop_post (s : String → String) (cid : Nat) :
    ∀ (os : List OwnerRec) (db db2 : Db),
      owners_loop s cid db os = .ok db2 →
      ∀ o ∈ os, owDone s db2 cid o := by
  intro os
  induction os with
  | nil => intro db db2 h o ho; cases ho
  | cons x rest ih =>
      intro db db2 h o ho
      simp only [owners_loop] at h
      cases ha : add_owner s db cid x with
      | error e =>
          rw [ha] at h
          simp at h
      | ok dbx =>
          rw [ha] at h
          cases List.mem_cons.mp ho with
          | inl he =>
              subst he
              have hdone := owDone_of_add ha
              have hfr := owners_loop_frame s cid rest dbx db2 h
              exact owDone_mono hdone hfr.2.2.2.2.2.2.2.1 hfr.2.2.2.2.2.2.2.2
          | inr ht => exact ih dbx db2 h o ht

/-- When every record of the list is already done, the owner loop
succeeds with the store unchanged. -/
theorem owners_loop_noop (s : String → String) (cid : Nat) :
    ∀ (os : List OwnerRec) (db : Db),
      (∀ o ∈ os, owDone s db cid o) →
      owners_loop s cid db os = .ok db := by
  intro os
  induction os with
  | nil => intro db _; rfl
  | cons x rest ih =>
      intro db h
      simp only [owners_loop]
      rw [add_owner_of_done (h x (by simp))]
      exact ih db (fun o ho => h o (by simp [ho]))

/-- One successful owner step preserves the store invariants. -/
theorem add_owner_inv {s : String → String} {db db2 : Db} {cid : Nat}
    {o : OwnerRec} (hinv : DbInv db) (h : add_owner s db cid o = .ok db2) :
    DbInv db2 := by
  have hf := add_owner_frame h
  refine ⟨?_, ?_, ?_, ?_, ?_, ?_, ?_⟩
  · rw [hf.1]; exact hinv.crate_names
  · rw [hf.1]; exact hinv.crate_ids
  · rw [hf.1, hf.2.2.2.2.2.2.1]; exact hinv.crate_ids_lt
  · rw [hf.2.1]; exact hinv.release_keys
  · rw [hf.2.2.2.2.1]; exact hinv.kw_rels_nodup
  · rw [hf.2.2.2.2.2.1]; exact hinv.au_rels_nodup
  · cases hf.2.2.2.2.2.2.2.2 with
    | inl he => rw [he]; exact hinv.ow_rels_nodup
    | inr hq =>
        obtain ⟨q, hq⟩ := hq
        rw [hq]
        exact insert_rel_ignore_nodup q hinv.ow_rels_nodup

/-- A successful owner loop preserves the store invariants. -/
theorem owners_loop_inv (s : String → String) (cid : Nat) :
    ∀ (os : List OwnerRec) {db db2 : Db}, DbInv db →
      owners_loop s cid db os = .ok db2 → DbInv db2 := by
  intro os
  induction os with
  | nil =>
      intro db db2 hinv h
      injection h with hdb
      subst hdb
      exact hinv
  | cons x rest ih =>
      intro db db2 hinv h
      simp only [owners_loop] at h
      cases ha : add_owner s db cid x with
      | error e =>
          rw [ha] at h
          simp at h
      | ok dbx =>
          rw [ha] at h
          exact ih (add_owner_inv hinv ha) h

/-- Helper: `find?` commutes with a map that preserves the predicate. -/
theorem find?_map_comm {α : Type} {l : List α} {g : α → α} {p : α → Bool}
    (hp : ∀ x, p (g x) = p x) :
    (l.map g).find? p = (l.find? p).map g := by
  induction l with
  | nil => rfl
  | cons a t ih =>
      simp only [List.map_cons, List.find?_cons, hp a]
      cases p a <;> simp [ih]

/-- Crate upsert returns the found row's id unchanged. -/
theorem upsert_crate_found {db : Db} {n : String} {r : CrateRow}
    (h : db.crates.find? (fun x => x.name = n) = some r) :
    upsert_crate db n = (db, r.id) := by
  unfold upsert_crate
  rw [h]

/-- After the crate upsert, a row with the requested name is found, its
id is the returned one, and every other table is untouched. -/
theorem upsert_crate_spec (db : Db) (n : String) :
    ∃ r, (upsert_crate db n).1.crates.find? (fun x => x.name = n) = some r ∧
      r.id = (upsert_crate db n).2 ∧ r.name = n ∧
      (upsert_crate db n).1.releases = db.releases ∧
      (upsert_crate db n).1.authors = db.authors ∧
      (upsert_crate db n).1.keywords = db.keywords ∧
      (upsert_crate db n).1.owners = db.owners ∧
      (upsert_crate db n).1.author_rels = db.author_rels ∧
      (upsert_crate db n).1.keyword_rels = db.keyword_rels ∧
      (upsert_crate db n).1.owner_rels = db.owner_rels := by
  unfold upsert_crate
  cases h : db.crates.find? (fun x => x.name = n) with
  | some r =>
      have hr : r.name = n := by simpa using List.find?_some h
      exact ⟨r, h, rfl, hr, rfl, rfl, rfl, rfl, rfl, rfl, rfl⟩
  | none =>
      refine ⟨⟨db.crates_next_id, n, []⟩, ?_, rfl, rfl, rfl, rfl, rfl, rfl, rfl,
        rfl, rfl⟩
      rw [List.find?_append, h]
      simp

/-- The crate upsert preserves the store invariants. -/
theorem upsert_crate_inv {db : Db} (hinv : DbInv db) (n : String) :
    DbInv (upsert_crate db n).1 := by
  unfold upsert_crate
  cases h : db.crates.find? (fun x => x.name = n) with
  | some r => exact hinv
  | none =>
      have habs : ∀ x ∈ db.crates, ¬(x.name = n) := by
        intro x hx
        simpa using List.find?_eq_none.mp h x hx
      refine ⟨?_, ?_, ?_, hinv.release_keys, hinv.kw_rels_nodup,
        hinv.au_rels_nodup, hinv.ow_rels_nodup⟩
      · rw [List.pairwise_append]
        refine ⟨hinv.crate_names, List.pairwise_singleton _ _, ?_⟩
        intro a ha b hb
        rw [List.mem_singleton] at hb
        subst hb
        exact habs a ha
      · rw [List.pairwise_append]
        refine ⟨hinv.crate_ids, List.pairwise_singleton _ _, ?_⟩
        intro a ha b hb
        rw [List.mem_singleton] at hb
        subst hb
        exact Nat.ne_of_lt (hinv.crate_ids_lt a ha)
      · intro x hx
        cases List.mem_append.mp hx with
        | inl hold =>
            exact Nat.lt_trans (hinv.crate_ids_lt x hold) (Nat.lt_succ_self _)
        | inr hnew =>
            rw [List.mem_singleton] at hnew
            subst hnew
            exact Nat.lt_succ_self _

/-- After the release upsert, a row with the requested key is found
with the returned id, every key-matching row carries the written
fields, and every other table is untouched. -/
theorem upsert_release_spec (db : Db) (cid : Nat) (v : String) (f : ReleaseFields) :
    ∃ q, (upsert_release db cid v f).1.releases.find?
        (fun r => r.crate_id = cid && r.version = v) = some q ∧
      q.id = (upsert_release db cid v f).2 ∧
      (∀ x ∈ (upsert_release db cid v f).1.releases,
        (x.crate_id = cid ∧ x.version = v) → x.fields = f) ∧
      (upsert_release db cid v f).1.crates = db.crates ∧
      (upsert_release db cid v f).1.authors = db.authors ∧
      (upsert_release db cid v f).1.keywords = db.keywords ∧
      (upsert_release db cid v f).1.owners = db.owners ∧
      (upsert_release db cid v f).1.author_rels = db.author_rels ∧
      (upsert_release db cid v f).1.keyword_rels = db.keyword_rels ∧
      (upsert_release db cid v f).1.owner_rels = db.owner_rels ∧
      (upsert_release db cid v f).1.crates_next_id = db.crates_next_id := by
  unfold upsert_release
  cases h : db.releases.find? (fun r => r.crate_id = cid && r.version = v) with
  | some r =>
      have hp : ∀ x : ReleaseRow,
          ((fun r => r.crate_id = cid && r.version = v)
            (if x.crate_id = cid && x.version = v then { x with fields := f } else x)) =
          ((fun r => r.crate_id = cid && r.version = v) x) := by
        intro x
        by_cases hx : (x.crate_id = cid && x.version = v) = true
        · rw [if_pos hx]
        · rw [if_neg hx]
      have hkey : (decide (r.crate_id = cid) && decide (r.version = v)) = true := by
        have hk := List.find?_some h
        exact hk
      refine ⟨{ r with fields := f }, ?_, rfl, ?_, rfl, rfl, rfl, rfl, rfl, rfl,
        rfl, rfl⟩
      · show (db.releases.map _).find? _ = _
        rw [find?_map_comm hp, h]
        rw [show Option.map (fun x => if x.crate_id = cid && x.version = v then
              { x with fields := f } else x) (some r) =
            some (if r.crate_id = cid && r.version = v then
              { r with fields := f } else r) from rfl]
        rw [if_pos hkey]
      · intro x hx hxkey
        obtain ⟨y, hy, hgy⟩ := List.mem_map.mp hx
        by_cases hyk : (y.crate_id = cid && y.version = v) = true
        · rw [if_pos hyk] at hgy
          rw [← hgy]
        · rw [if_neg hyk] at hgy
          subst hgy
          exact absurd (by simp [hxkey.1, hxkey.2]) hyk
  | none =>
      have habs : ∀ x ∈ db.releases, ¬((x.crate_id = cid && x.version = v) = true) :=
        List.find?_eq_none.mp h
      refine ⟨⟨db.releases_next_id, cid, v, f⟩, ?_, rfl, ?_, rfl, rfl, rfl, rfl,
        rfl, rfl, rfl, rfl⟩
      · show (db.releases ++ _).find? _ = _
        rw [List.find?_append, h]
        simp
      · intro x hx hxkey
        cases List.mem_append.mp hx with
        | inl hold =>
            exact absurd (by simp [hxkey.1, hxkey.2]) (habs x hold)
        | inr hnew =>
            rw [List.mem_singleton] at hnew
            subst hnew
            rfl

/-- The release upsert preserves the store invariants. -/
theorem upsert_release_inv {db : Db} (hinv : DbInv db) (cid : Nat) (v : String)
    (f : ReleaseFields) : DbInv (upsert_release db cid v f).1 := by
  unfold upsert_release
  cases h : db.releases.find? (fun r => r.crate_id = cid && r.version = v) with
  | some r =>
      refine ⟨hinv.crate_names, hinv.crate_ids, hinv.crate_ids_lt, ?_,
        hinv.kw_rels_nodup, hinv.au_rels_nodup, hinv.ow_rels_nodup⟩
      show (db.releases.map _).Pairwise _
      rw [List.pairwise_map]
      refine hinv.release_keys.imp ?_
      intro a b hab hkeys
      apply hab
      constructor
      · have ha := hkeys.1
        by_cases hak : (a.crate_id = cid && a.version = v) = true <;>
          by_cases hbk : (b.crate_id = cid && b.version = v) = true <;>
          simp only [hak, hbk, if_true, if_false] at ha <;> simpa using ha
      · have hb := hkeys.2
        by_cases hak : (a.crate_id = cid && a.version = v) = true <;>
          by_cases hbk : (b.crate_id = cid && b.version = v) = true <;>
          simp only [hak, hbk, if_true, if_false] at hb <;> simpa using hb
  | none =>
      have habs : ∀ x ∈ db.releases, ¬((x.crate_id = cid && x.version = v) = true) :=
        List.find?_eq_none.mp h
      refine ⟨hinv.crate_names, hinv.crate_ids, hinv.crate_ids_lt, ?_,
        hinv.kw_rels_nodup, hinv.au_rels_nodup, hinv.ow_rels_nodup⟩
      show (db.releases ++ _).Pairwise _
      rw [List.pairwise_append]
      refine ⟨hinv.release_keys, List.pairwise_singleton _ _, ?_⟩
      intro a ha b hb
      rw [List.mem_singleton] at hb
      subst hb
      intro hk
      exact habs a ha (by simp [hk.1, hk.2])

/-- A release upsert whose key already holds the written fields is the
identity and returns the found id. -/
theorem upsert_release_noop {db : Db} {cid : Nat} {v : String} {f : ReleaseFields}
    {rid : Nat}
    (hfind : ∃ q, db.releases.find?
      (fun r => r.crate_id = cid && r.version = v) = some q ∧ q.id = rid)
    (hall : ∀ x ∈ db.releases, (x.crate_id = cid ∧ x.version = v) → x.fields = f) :
    upsert_release db cid v f = (db, rid) := by
  obtain ⟨q, hq, hid⟩ := hfind
  unfold upsert_release
  rw [hq]
  have hmap : db.releases.map
      (fun x => if x.crate_id = cid && x.version = v then { x with fields := f } else x) =
      db.releases := by
    apply map_eq_self_of
    intro x hx
    by_cases hxk : (x.crate_id = cid && x.version = v) = true
    · rw [if_pos hxk]
      have hk : x.crate_id = cid ∧ x.version = v := by simpa using hxk
      rw [← hall x hx hk]
    · rw [if_neg hxk]
  rw [hmap]
  show ({ db with releases := db.releases }, q.id) = (db, rid)
  rw [hid]

/-- Frame facts of the versions update: only `crates` rows change, and
only their `versions` column. -/
theorem update_versions_frame (db : Db) (cid : Nat) (v : String) :
    (update_versions db cid v).releases = db.releases ∧
    (update_versions db cid v).authors = db.authors ∧
    (update_versions db cid v).keywords = db.keywords ∧
    (update_versions db cid v).owners = db.owners ∧
    (update_versions db cid v).author_rels = db.author_rels ∧
    (update_versions db cid v).keyword_rels = db.keyword_rels ∧
    (update_versions db cid v).owner_rels = db.owner_rels ∧
    (update_versions db cid v).crates_next_id = db.crates_next_id := by
  unfold update_versions
  cases h : db.crates.find? (fun x => x.id = cid) with
  | none => exact ⟨rfl, rfl, rfl, rfl, rfl, rfl, rfl, rfl⟩
  | some r => exact ⟨rfl, rfl, rfl, rfl, rfl, rfl, rfl, rfl⟩

/-- The versions update maps the crate rows through an id- and
name-preserving function. -/
theorem update_versions_crates (db : Db) (cid : Nat) (v : String) :
    ∃ g : CrateRow → CrateRow,
      (update_versions db cid v).crates = db.crates.map g ∧
      (∀ x, (g x).name = x.name) ∧ (∀ x, (g x).id = x.id) := by
  unfold update_versions
  cases h : db.crates.find? (fun x => x.id = cid) with
  | none =>
      exact ⟨fun x => x, by simp, fun x => rfl, fun x => rfl⟩
  | some r =>
      refine ⟨fun q => if q.id = cid then
          { q with versions := if r.versions.contains v then r.versions
              else r.versions ++ [v] }
        else q, rfl, ?_, ?_⟩ <;>
        intro x <;> by_cases hx : x.id = cid <;> simp [hx]

/-- The versions update preserves the store invariants. -/
theorem update_versions_inv {db : Db} (hinv : DbInv db) (cid : Nat) (v : String) :
    DbInv (update_versions db cid v) := by
  obtain ⟨g, hg, hname, hid⟩ := update_versions_crates db cid v
  have hfr := update_versions_frame db cid v
  refine ⟨?_, ?_, ?_, ?_, ?_, ?_, ?_⟩
  · rw [hg, List.pairwise_map]
    refine hinv.crate_names.imp ?_
    intro a b hab
    rw [hname, hname]
    exact hab
  · rw [hg, List.pairwise_map]
    refine hinv.crate_ids.imp ?_
    intro a b hab
    rw [hid, hid]
    exact hab
  · rw [hg, hfr.2.2.2.2.2.2.2]
    intro x hx
    obtain ⟨y, hy, hgy⟩ := List.mem_map.mp hx
    rw [← hgy, hid]
    exact hinv.crate_ids_lt y hy
  · rw [hfr.1]; exact hinv.release_keys
  · rw [hfr.2.2.2.2.2.1]; exact hinv.kw_rels_nodup
  · rw [hfr.2.2.2.2.1]; exact hinv.au_rels_nodup
  · rw [hfr.2.2.2.2.2.2.1]; exact hinv.ow_rels_nodup

/-- After the versions update, the looked-up crate row's version list
contains the version. -/
theorem update_versions_post (db : Db) (cid : Nat) (v : String) {r : CrateRow}
    (hfind : db.crates.find? (fun x => x.id = cid) = some r) :
    ∃ r2, (update_versions db cid v).crates.find? (fun x => x.id = cid) = some r2 ∧
      v ∈ r2.versions := by
  have hrid : (decide (r.id = cid)) = true := by
    have hk := List.find?_some hfind
    exact hk
  have hrid2 : r.id = cid := by simpa using hrid
  unfold update_versions
  rw [hfind]
  have hp : ∀ x : CrateRow,
      (decide ((if x.id = cid then
        { x with versions := if r.versions.contains v then r.versions
            else r.versions ++ [v] }
        else x).id = cid)) = (decide (x.id = cid)) := by
    intro x
    by_cases hx : x.id = cid
    · rw [if_pos hx]
    · rw [if_neg hx]
  refine ⟨(fun q => if q.id = cid then
      { q with versions := if r.versions.contains v then r.versions
          else r.versions ++ [v] } else q) r, ?_, ?_⟩
  · show (db.crates.map _).find? _ = _
    rw [find?_map_comm hp, hfind]
    rfl
  · show v ∈ (if r.id = cid then
        { r with versions := if r.versions.contains v then r.versions
            else r.versions ++ [v] } else r).versions
    rw [if_pos hrid2]
    by_cases hc : r.versions.contains v = true
    · rw [if_pos hc]
      exact List.elem_iff.mp hc
    · rw [if_neg hc]
      exact List.mem_append.mpr (Or.inr (by simp))

/-- An ingestion whose external inputs are available, whose matched
registry timestamp parses, and whose owner loop succeeds (from the
store the infallible steps produce) returns the owner loop's store
after the versions update. -/
theorem add_crate_into_database_ok
    (c : Crate) (version : String) (inp : IngestInputs) (db : Db)
    {info : CrateInfo} {hx : Bool} {regs : List RegVersion}
    {rtd : Option String × Option Bool × Option Int}
    {owners? : Option (List OwnerRec)} {db8 : Db}
    (hinfo : obtain_crate_info inp = .ok (info, hx))
    (hreg : inp.registry_versions = .ok regs)
    (hrtd : registry_release_data regs version = some rtd)
    (how : inp.owners_response = .ok owners?)
    (howp : owners_phase inp.slugify (pre_owners c inp info hx rtd db)
      (upsert_crate db c.name).2 owners? = .ok db8) :
    c.add_crate_into_database version inp db =
      some (.ok (update_versions db8 (upsert_crate db c.name).2 version)) := by
  unfold Crate.add_crate_into_database
  simp only [hinfo, hreg, hrtd, how, howp]

/-- Inversion of a successful ingestion: the external inputs were
available, the matched registry timestamp parsed, the owner loop
succeeded from the infallible steps' store, and the result is that
store after the versions update. -/
theorem add_crate_into_database_ok_inv
    {c : Crate} {version : String} {inp : IngestInputs} {db dbR : Db}
    (h : c.add_crate_into_database version inp db = some (.ok dbR)) :
    ∃ (info : CrateInfo) (hx : Bool) (regs : List RegVersion)
      (rtd : Option String × Option Bool × Option Int)
      (owners? : Option (List OwnerRec)) (db8 : Db),
      obtain_crate_info inp = .ok (info, hx) ∧
      inp.registry_versions = .ok regs ∧
      registry_release_data regs version = some rtd ∧
      inp.owners_response = .ok owners? ∧
      owners_phase inp.slugify (pre_owners c inp info hx rtd db)
        (upsert_crate db c.name).2 owners? = .ok db8 ∧
      dbR = update_versions db8 (upsert_crate db c.name).2 version := by
  unfold Crate.add_crate_into_database at h
  cases hobt : obtain_crate_info inp with
  | error e =>
      rw [hobt] at h
      simp at h
  | ok p =>
      obtain ⟨info, hx⟩ := p
      simp only [hobt] at h
      cases hreg : inp.registry_versions with
      | error e =>
          simp only [hreg] at h
          simp at h
      | ok regs =>
          simp only [hreg] at h
          cases hrtd : registry_release_data regs version with
          | none =>
              simp only [hrtd] at h
              simp at h
          | some rtd =>
              simp only [hrtd] at h
              cases how : inp.owners_response with
              | error e =>
                  simp only [how] at h
                  simp at h
              | ok owners? =>
                  simp only [how] at h
                  cases howp : owners_phase inp.slugify
                      (pre_owners c inp info hx rtd db)
                      (upsert_crate db c.name).2 owners? with
                  | error e =>
                      simp only [howp] at h
                      simp at h
                  | ok db8 =>
                      simp only [howp] at h
                      refine ⟨info, hx, regs, rtd, owners?, db8, rfl, rfl,
                        hrtd, rfl, howp, ?_⟩
                      injection h with h2
                      injection h2 with h3
                      exact h3.symm

/-- A version-less update of the versions update: with the version
already recorded, step 9 is the identity. -/
theorem update_versions_noop {db : Db} {cid : Nat} {v : String}
    (hids : db.crates.Pairwise (fun a b => a.id ≠ b.id))
    (hfind : ∃ r, db.crates.find? (fun x => x.id = cid) = some r ∧ v ∈ r.versions) :
    update_versions db cid v = db := by
  obtain ⟨r, hr, hv⟩ := hfind
  have hrmem : r ∈ db.crates := List.mem_of_find?_eq_some hr
  have hrid : r.id = cid := by simpa using List.find?_some hr
  have hc : r.versions.contains v = true := List.elem_iff.mpr hv
  unfold update_versions
  rw [hr]
  show { db with crates := db.crates.map (fun q => if q.id = cid then
      { q with versions := if r.versions.contains v then r.versions
          else r.versions ++ [v] } else q) } = db
  rw [if_pos hc]
  have hmap : db.crates.map (fun q => if q.id = cid then
      { q with versions := r.versions } else q) = db.crates := by
    apply map_eq_self_of
    intro x hx
    by_cases hxid : x.id = cid
    · have hxr : x = r := eq_of_pairwise_ids hids hx hrmem (by rw [hxid, hrid])
      subst hxr
      rw [if_pos hxid]
    · rw [if_neg hxid]
  rw [hmap]

/-- `kwDone` only looks at the keyword table and relationships. -/
theorem kwDone_congr {s : String → String} {db db' : Db} {rid : Nat} {kw : String}
    (h1 : db'.keywords = db.keywords) (h2 : db'.keyword_rels = db.keyword_rels)
    (h : kwDone s db rid kw) : kwDone s db' rid kw := by
  unfold kwDone at h ⊢
  rw [h1, h2]
  exact h

/-- `auDone` only looks at the author table and relationships. -/
theorem auDone_congr {s : String → String} {db db' : Db} {rid : Nat} {a : String}
    (h1 : db'.authors = db.authors) (h2 : db'.author_rels = db.author_rels)
    (h : auDone s db rid a) : auDone s db' rid a := by
  unfold auDone at h ⊢
  rw [h1, h2]
  exact h

/-- `owDone` only looks at the owner table and relationships. -/
theorem owDone_congr {s : String → String} {db db' : Db} {cid : Nat} {o : OwnerRec}
    (h1 : db'.owners = db.owners) (h2 : db'.owner_rels = db.owner_rels)
    (h : owDone s db cid o) : owDone s db' cid o := by
  unfold owDone at h ⊢
  rw [h1, h2]
  exact h

/-- Frame facts of a successful owner phase, for an arbitrary response
shape. -/
theorem owners_phase_frame_opt {s : String → String} {cid : Nat}
    {ow? : Option (List OwnerRec)} {db db2 : Db}
    (h : owners_phase s db cid ow? = .ok db2) :
    db2.crates = db.crates ∧
    db2.releases = db.releases ∧
    db2.keywords = db.keywords ∧
    db2.authors = db.authors ∧
    db2.keyword_rels = db.keyword_rels ∧
    db2.author_rels = db.author_rels ∧
    db2.crates_next_id = db.crates_next_id ∧
    (∃ l, db2.owners = db.owners ++ l) ∧
    (∀ p ∈ db.owner_rels, p ∈ db2.owner_rels) := by
  cases ow? with
  | none =>
      simp only [owners_phase] at h
      injection h with hdb
      subst hdb
      exact ⟨rfl, rfl, rfl, rfl, rfl, rfl, rfl, ⟨[], by simp⟩, fun p hp => hp⟩
  | some os => exact owners_loop_frame s cid os db db2 h

/-- After a successful owner phase, every record of a `some` response
is done. -/
theorem owners_phase_post_opt {s : String → String} {cid : Nat}
    {ow? : Option (List OwnerRec)} {db db2 : Db}
    (h : owners_phase s db cid ow? = .ok db2) :
    ∀ (os : List OwnerRec), ow? = some os → ∀ o ∈ os, owDone s db2 cid o := by
  intro os hos o ho
  subst hos
  exact owners_loop_post s cid os db db2 h o ho

/-- When every record of the response is already done, the owner phase
succeeds with the store unchanged. -/
theorem owners_phase_noop_opt (s : String → String) (cid : Nat)
    (ow? : Option (List OwnerRec)) (db : Db)
    (h : ∀ (os : List OwnerRec), ow? = some os → ∀ o ∈ os, owDone s db cid o) :
    owners_phase s db cid ow? = .ok db := by
  cases ow? with
  | none => rfl
  | some os => exact owners_loop_noop s cid os db (h os rfl)

/-- A successful owner phase preserves the store invariants. -/
theorem owners_phase_inv_opt {s : String → String} {cid : Nat}
    {ow? : Option (List OwnerRec)} {db db2 : Db}
    (hinv : DbInv db) (h : owners_phase s db cid ow? = .ok db2) : DbInv db2 := by
  cases ow? with
  | none =>
      simp only [owners_phase] at h
      injection h with hdb
      subst hdb
      exact hinv
  | some os => exact owners_loop_inv s cid os hinv h

/-! ## Theorems: ingestion failure semantics (C9) -/

/-- **C9**: failures in the early ingestion steps abort the whole call
with a typed error — a failing manifest acquisition (step 2, on either
the synced-copy or the download/extract path) and a failing registry
metadata fetch (step 3) each surface verbatim — while the per-item work
of steps 6–9 swallows its expected failures instead of propagating
them: a malformed author string is skipped without error, and each
`(release, keyword)`, `(release, author)` and `(crate, owner)`
relationship insert's own result is discarded — inserting an
already-present pair fails with the uniqueness violation, the discarded
failure leaves the join table unchanged, and a keyword, author or owner
step whose row and relationship are already present is a silent
no-op. -/
theorem ingest_failure_semantics :
    (∀ (c : Crate) (version : String) (inp : IngestInputs) (db : Db)
       (e : CrateOpenError),
      obtain_crate_info inp = .error e →
      c.add_crate_into_database version inp db = some (.error e)) ∧
    (∀ (inp : IngestInputs) (m : String),
      inp.source_copy_exists = false → inp.download_result = .error m →
      obtain_crate_info inp = .error (.CommandError m)) ∧
    (∀ (inp : IngestInputs) (e : CrateOpenError),
      inp.source_copy_exists = true → inp.synced_info = .error e →
      obtain_crate_info inp = .error e) ∧
    (∀ (c : Crate) (version : String) (inp : IngestInputs) (db : Db)
       (info : CrateInfo) (hx : Bool) (e : CrateOpenError),
      obtain_crate_info inp = .ok (info, hx) →
      inp.registry_versions = .error e →
      c.add_crate_into_database version inp db = some (.error e)) ∧
    (∀ (slugify : String → String) (db : Db) (release_id : Nat) (author : String),
      parse_author author = none →
      add_author slugify db release_id author = db) ∧
    (∀ (rels : List (Nat × Nat)) (p : Nat × Nat), p ∈ rels →
      insert_rel rels p = .error .UniqueViolation ∧ insert_rel_ignore rels p = rels) ∧
    (∀ (s : String → String) (db : Db) (rid : Nat) (kw : String),
      kwDone s db rid kw → add_keyword s db rid kw = db) ∧
    (∀ (s : String → String) (db : Db) (rid : Nat) (a : String),
      auDone s db rid a → add_author s db rid a = db) ∧
    (∀ (s : String → String) (db : Db) (cid : Nat) (o : OwnerRec),
      owDone s db cid o → add_owner s db cid o = .ok db) := by
  refine ⟨?_, ?_, ?_, ?_, ?_, ?_, ?_, ?_, ?_⟩
  · intro c version inp db e h
    simp [Crate.add_crate_into_database, h]
  · intro inp m h1 h2
    simp [obtain_crate_info, h1, h2]
  · intro inp e h1 h2
    simp [obtain_crate_info, h1, h2]
  · intro c version inp db info hx e hinfo hreg
    simp [Crate.add_crate_into_database, hinfo, hreg]
  · intro slugify db release_id author h
    simp [add_author, h]
  · intro rels p hp
    exact ⟨by simp [insert_rel, hp], by simp [insert_rel_ignore, insert_rel, hp]⟩
  · intro s db rid kw h
    exact add_keyword_of_done h
  · intro s db rid a h
    exact add_author_of_done h
  · intro s db cid o h
    exact add_owner_of_done h

/-- Witness for the C9 theorem: a failing manifest acquisition aborts a
concrete ingestion with the same typed error. -/
theorem ingest_failure_semantics_witness :
    Crate.add_crate_into_database { name := "rand", versions := ["1.0"] } "1.0"
      demo_err_inputs empty_db = some (.error .FileNotFound) :=
  ingest_failure_semantics.1 { name := "rand", versions := ["1.0"] } "1.0"
    demo_err_inputs empty_db .FileNotFound rfl

/-! ## Theorems: ingestion idempotence (C1) -/

/-- **C1**: on a store satisfying the schema's uniqueness invariants, a
completed metadata ingestion for a `(package, version)` is idempotent:
re-running it with identical external inputs succeeds and returns the
first run's store unchanged, and that store holds exactly one crate row
for the name (with the version recorded on it), at most one release row
per `(crate id, version)` pair, and no duplicate rows in the
keyword/author/owner join tables.  (A first run can itself abort — an
owners insert can violate `UNIQUE(slug)`, and a malformed registry
timestamp panics — so idempotence is stated for a completed run.) -/
theorem add_crate_into_database_idempotent
    (c : Crate) (version : String) (inp : IngestInputs) (db0 db1 : Db)
    (hinv : DbInv db0)
    (hrun : c.add_crate_into_database version inp db0 = some (.ok db1)) :
    c.add_crate_into_database version inp db1 = some (.ok db1) ∧
    (db1.crates.filter (fun r => r.name = c.name)).length = 1 ∧
    db1.releases.Pairwise
      (fun a b => ¬(a.crate_id = b.crate_id ∧ a.version = b.version)) ∧
    (∃ r ∈ db1.crates, r.name = c.name ∧ version ∈ r.versions) ∧
    db1.keyword_rels.Nodup ∧ db1.author_rels.Nodup ∧ db1.owner_rels.Nodup := by
  obtain ⟨info, hx, regs, rtd, owners?, db8, hinfo, hreg, hrtd, how, howp, hdbR⟩ :=
    add_crate_into_database_ok_inv hrun
  obtain ⟨r0, hr0find, hr0id, hr0name, hAfrR, hAfrAu, hAfrK, hAfrOw, hAfrAR,
    hAfrKR, hAfrOR⟩ := upsert_crate_spec db0 c.name
  have hinvA : DbInv (upsert_crate db0 c.name).1 := upsert_crate_inv hinv c.name
  set cid := (upsert_crate db0 c.name).2 with hcid
  set dbA := (upsert_crate db0 c.name).1 with hdbA
  obtain ⟨q0, hq0find, hq0id, hq0all, hBfrC, hBfrAu, hBfrK, hBfrOw, hBfrAR,
    hBfrKR, hBfrOR, hBfrCN⟩ :=
    upsert_release_spec dbA cid info.version (mk_release_fields inp info hx rtd)
  have hinvB : DbInv (upsert_release dbA cid info.version
      (mk_release_fields inp info hx rtd)).1 :=
    upsert_release_inv hinvA cid info.version _
  set rid := (upsert_release dbA cid info.version
    (mk_release_fields inp info hx rtd)).2 with hrid
  set dbB := (upsert_release dbA cid info.version
    (mk_release_fields inp info hx rtd)).1 with hdbB
  have hCfr := keywords_phase_frame inp.slugify rid info.metadata.keywords dbB
  have hCpost := keywords_phase_post inp.slugify rid info.metadata.keywords dbB
  have hinvC : DbInv (keywords_phase inp.slugify dbB rid info.metadata.keywords) :=
    keywords_phase_inv inp.slugify rid info.metadata.keywords hinvB
  set dbC := keywords_phase inp.slugify dbB rid info.metadata.keywords with hdbC
  have hDfr := authors_phase_frame inp.slugify rid info.metadata.authors dbC
  have hDpost := authors_phase_post inp.slugify rid info.metadata.authors dbC
  have hinvD : DbInv (authors_phase inp.slugify dbC rid info.metadata.authors) :=
    authors_phase_inv inp.slugify rid info.metadata.authors hinvC
  set dbD := authors_phase inp.slugify dbC rid info.metadata.authors with hdbD
  have hpre : pre_owners c inp info hx rtd db0 = dbD := rfl
  rw [hpre] at howp
  have hEfr := owners_phase_frame_opt howp
  have hEpost := owners_phase_post_opt howp
  have hinvE : DbInv db8 := owners_phase_inv_opt hinvD howp
  have hcratesE : db8.crates = dbA.crates := by
    rw [hEfr.1, hDfr.1, hCfr.1, hBfrC]
  have hrelE : db8.releases = dbB.releases := by
    rw [hEfr.2.1, hDfr.2.1, hCfr.2.1]
  have hfindE_name : db8.crates.find? (fun x => x.name = c.name) = some r0 := by
    rw [hcratesE]
    exact hr0find
  have hr0memE : r0 ∈ db8.crates := List.mem_of_find?_eq_some hfindE_name
  obtain ⟨rE, hrEfind⟩ : ∃ rE, db8.crates.find? (fun x => x.id = cid) = some rE := by
    have hsome : (db8.crates.find? (fun x => x.id = cid)).isSome := by
      rw [List.find?_isSome]
      exact ⟨r0, hr0memE, by simp [hr0id]⟩
    exact Option.isSome_iff_exists.mp hsome
  subst hdbR
  have hFfr := update_versions_frame db8 cid version
  obtain ⟨g, hgcrates, hgname, hgid⟩ := update_versions_crates db8 cid version
  have hFpost := update_versions_post db8 cid version hrEfind
  have hinv1 : DbInv (update_versions db8 cid version) :=
    update_versions_inv hinvE cid version
  set db1 := update_versions db8 cid version with hdb1
  have hG1 : db1.crates.find? (fun x => x.name = c.name) = some (g r0) := by
    have hp : ∀ x : CrateRow,
        (decide ((g x).name = c.name)) = (decide (x.name = c.name)) := by
      intro x
      rw [hgname]
    rw [hgcrates, find?_map_comm hp, hfindE_name]
    rfl
  have hG1id : (g r0).id = cid := by
    rw [hgid]
    exact hr0id
  have hrel1 : db1.releases = dbB.releases := by
    rw [hFfr.1, hrelE]
  have hG2find : db1.releases.find?
      (fun r => r.crate_id = cid && r.version = info.version) = some q0 := by
    rw [hrel1]
    exact hq0find
  have hG2all : ∀ x ∈ db1.releases, (x.crate_id = cid ∧ x.version = info.version) →
      x.fields = mk_release_fields inp info hx rtd := by
    rw [hrel1]
    exact hq0all
  have hkw1 : db1.keywords = dbC.keywords := by
    rw [hFfr.2.2.1, hEfr.2.2.1, hDfr.2.2.1]
  have hkwr1 : db1.keyword_rels = dbC.keyword_rels := by
    rw [hFfr.2.2.2.2.2.1, hEfr.2.2.2.2.1, hDfr.2.2.2.2.1]
  have hG3 : ∀ kw ∈ info.metadata.keywords, kwDone inp.slugify db1 rid kw :=
    fun kw hkw => kwDone_congr hkw1 hkwr1 (hCpost kw hkw)
  have hau1 : db1.authors = dbD.authors := by
    rw [hFfr.2.1, hEfr.2.2.2.1]
  have haur1 : db1.author_rels = dbD.author_rels := by
    rw [hFfr.2.2.2.2.1, hEfr.2.2.2.2.2.1]
  have hG4 : ∀ a ∈ info.metadata.authors, auDone inp.slugify db1 rid a :=
    fun a ha => auDone_congr hau1 haur1 (hDpost a ha)
  have how1 : db1.owners = db8.owners := hFfr.2.2.2.1
  have howr1 : db1.owner_rels = db8.owner_rels := hFfr.2.2.2.2.2.2.1
  have hG5 : ∀ (os : List OwnerRec), owners? = some os →
      ∀ o ∈ os, owDone inp.slugify db1 cid o :=
    fun os hos o ho => owDone_congr how1 howr1 (hEpost os hos o ho)
  obtain ⟨rF, hrFfind, hrFv⟩ := hFpost
  have e1 : upsert_crate db1 c.name = (db1, cid) := by
    rw [upsert_crate_found hG1, hG1id]
  have e2 : upsert_release db1 cid info.version
      (mk_release_fields inp info hx rtd) = (db1, rid) :=
    upsert_release_noop ⟨q0, hG2find, hq0id⟩ hG2all
  have e3 : keywords_phase inp.slugify db1 rid info.metadata.keywords = db1 :=
    keywords_phase_noop inp.slugify rid info.metadata.keywords db1 hG3
  have e4 : authors_phase inp.slugify db1 rid info.metadata.authors = db1 :=
    authors_phase_noop inp.slugify rid info.metadata.authors db1 hG4
  have e5 : owners_phase inp.slugify db1 cid owners? = .ok db1 :=
    owners_phase_noop_opt inp.slugify cid owners? db1 hG5
  have e6 : update_versions db1 cid version = db1 :=
    update_versions_noop hinv1.crate_ids ⟨rF, hrFfind, hrFv⟩
  have hpre1 : pre_owners c inp info hx rtd db1 = db1 := by
    unfold pre_owners
    simp only [e1, e2, e3, e4]
  have hcid1 : (upsert_crate db1 c.name).2 = cid := by
    rw [e1]
  have howp1 : owners_phase inp.slugify (pre_owners c inp info hx rtd db1)
      (upsert_crate db1 c.name).2 owners? = .ok db1 := by
    rw [hpre1, hcid1]
    exact e5
  have hrun2 : c.add_crate_into_database version inp db1 = some (.ok db1) := by
    rw [add_crate_into_database_ok c version inp db1 hinfo hreg hrtd how howp1,
      hcid1, e6]
  have hnamegr0 : (g r0).name = c.name := by
    rw [hgname]
    exact hr0name
  have hmemgr0 : g r0 ∈ db1.crates := List.mem_of_find?_eq_some hG1
  have hrFid : rF.id = cid := by
    simpa using List.find?_some hrFfind
  have hrF_eq : rF = g r0 :=
    eq_of_pairwise_ids hinv1.crate_ids (List.mem_of_find?_eq_some hrFfind)
      hmemgr0 (hrFid.trans hG1id.symm)
  have hver : version ∈ (g r0).versions := by
    rw [← hrF_eq]
    exact hrFv
  exact ⟨hrun2, filter_name_length_one c.name hinv1.crate_names hmemgr0 hnamegr0,
    hinv1.release_keys, ⟨g r0, hmemgr0, hnamegr0, hver⟩,
    hinv1.kw_rels_nodup, hinv1.au_rels_nodup, hinv1.ow_rels_nodup⟩

/-- Witness: the idempotence theorem applied at a concrete crate,
concrete successful external inputs, and the empty store;
`demo_ingested_db` is the first run's store. -/
theorem add_crate_into_database_idempotent_witness :
    Crate.add_crate_into_database { name := "rand", versions := ["1.0"] } "1.0"
      demo_ok_inputs demo_ingested_db = some (.ok demo_ingested_db) ∧
    (demo_ingested_db.crates.filter (fun r => r.name = "rand")).length = 1 := by
  obtain ⟨h1, h2, -⟩ :=
    add_crate_into_database_idempotent { name := "rand", versions := ["1.0"] }
      "1.0" demo_ok_inputs empty_db demo_ingested_db
      (by constructor <;> simp [empty_db]) (by rfl)
  exact ⟨h1, h2⟩

end Cratesfyi
